import Mathlib

/-!
Shallow embedding of the hospital appointment dialogue engine of the
cavas-voice-demo repository (the hospital-mode portion of the server),
together with proofs of the specification claims about it.

JavaScript strings are modelled as Lean `String`/`List Char`; JS
`null`/missing values as `Option`; the JS truthiness of a string value
(`"" `/ `null` falsy) is modelled by comparison with the empty string.
The regular-expression matching done by the extractors is embedded as
explicit scanners with the same leftmost-match, greedy-with-backtracking
semantics (word boundaries follow the JS `\b` rule: a boundary lies
between a word character `[A-Za-z0-9_]` and a non-word character or a
string edge).  External collaborators (the paraphrasing LLM call, the
random confirmation-id source) are passed in as explicit parameters.
-/

namespace Cavas

/-- JS `\s` whitespace, restricted to the ASCII whitespace characters. -/
def jsIsSpace (c : Char) : Bool :=
  c = ' ' || c = '\t' || c = '\n' || c = '\r' || c = '\x0b' || c = '\x0c'

/-- JS `\w` word character: `[A-Za-z0-9_]`. -/
def isWordChar (c : Char) : Bool :=
  c.isAlpha || c.isDigit || c = '_'

/-- Word-boundary test between an optional previous character and an
optional current character (`none` = string edge = non-word side). -/
def jsBoundary (prev cur : Option Char) : Bool :=
  (prev.elim false isWordChar) != (cur.elim false isWordChar)

/-- ASCII lower-casing of one character (JS `toLowerCase` restricted to
the ASCII range; Devanagari characters are unaffected in both). -/
def lowChar (c : Char) : Char := c.toLower

/-- Devanagari code-point test (U+0900 – U+097F). -/
def isDevanagariChar (c : Char) : Bool :=
  0x900 ≤ c.toNat && c.toNat ≤ 0x97F

/-- Drop leading JS whitespace. -/
def dropLeadWs (l : List Char) : List Char := l.dropWhile jsIsSpace

/-- JS `String.prototype.trim` on a character list. -/
def jsTrimL (l : List Char) : List Char :=
  ((dropLeadWs l).reverse.dropWhile jsIsSpace).reverse

/-- JS `String.prototype.trim`. -/
def jsTrim (s : String) : String := ⟨jsTrimL s.data⟩

/-- Collapse every maximal whitespace run to a single space
(the `replace(/\s+/g, " ")` step of `normalize`); the flag records
whether we are inside a run that has already emitted its space. -/
def collapseGo : List Char → Bool → List Char
  | [], _ => []
  | c :: cs, inRun =>
    if jsIsSpace c then
      if inRun then collapseGo cs true else ' ' :: collapseGo cs true
    else c :: collapseGo cs false

/-- `replace(/\s+/g, " ")` on a character list. -/
def collapseWs (l : List Char) : List Char := collapseGo l false

/-- `normalize(s)`: lowercase, collapse whitespace, trim
(`String(s||"").toLowerCase().replace(/\s+/g," ").trim()`). -/
def normalize (s : String) : String :=
  ⟨jsTrimL (collapseWs (s.data.map lowChar))⟩

/-- `containsDevanagari(text)`: `/[ऀ-ॿ]/.test(text)`. -/
def containsDevanagari (s : String) : Bool :=
  s.data.any isDevanagariChar

/-- Prefix test on character lists. -/
def isPrefixL : List Char → List Char → Bool
  | [], _ => true
  | _ :: _, [] => false
  | p :: ps, c :: cs => p = c && isPrefixL ps cs

/-- Infix (contiguous substring) test on character lists. -/
def isInfixL (pat : List Char) : List Char → Bool
  | [] => isPrefixL pat []
  | c :: cs => isPrefixL pat (c :: cs) || isInfixL pat cs

/-- JS `String.prototype.includes` (substring containment). -/
def jsIncludes (s pat : String) : Bool :=
  isInfixL pat.data s.data

/-- `detectLangPreference(text)`: Devanagari or the word hindi locks
Hindi, the word english (or its Devanagari spelling) switches to
English, anything else leaves the language unchanged (`null`). -/
def detectLangPreference (text : String) : Option String :=
  let t := normalize text
  if containsDevanagari text then some "hi-IN"
  else if jsIncludes t "hindi" || jsIncludes t "हिंदी" || jsIncludes t "हिन्दी" then some "hi-IN"
  else if jsIncludes t "english" || jsIncludes t "अंग्रेजी" then some "en-IN"
  else none

/-- One doctor of the static directory. -/
structure Doctor where
  id : String
  name : String
  dept : String
  location : String
  nextSlots : List String
deriving Repr, DecidableEq

/-- The static `DOCTORS` directory. -/
def DOCTORS : List Doctor :=
  [ { id := "D001", name := "Dr Arjun Mehta", dept := "Cardiology", location := "Gurgaon",
      nextSlots := ["Tomorrow 5 PM", "Day after tomorrow 11 AM", "Friday 4 PM"] },
    { id := "D002", name := "Dr Neha Sharma", dept := "Cardiology", location := "Gurgaon",
      nextSlots := ["Tomorrow 12 PM", "Thursday 6 PM"] },
    { id := "D003", name := "Dr Rohan Kapoor", dept := "Orthopedics", location := "Gurgaon",
      nextSlots := ["Tomorrow 3 PM", "Saturday 10 AM"] },
    { id := "D004", name := "Dr Simran Kaur", dept := "ENT", location := "Gurgaon",
      nextSlots := ["Tomorrow 1 PM", "Friday 2 PM"] } ]

/-- The static `DEPARTMENTS` list. -/
def DEPARTMENTS : List String :=
  ["Cardiology", "Orthopedics", "ENT", "Neurology", "Oncology", "Dermatology", "Gastroenterology"]

/-- The alias table of `detectDept`. -/
def deptAliases : List (List String × String) :=
  [ (["cardio", "cardiology", "heart", "cardiologist"], "Cardiology"),
    (["ortho", "orthopedic", "orthopedics", "bones", "bone"], "Orthopedics"),
    (["ent", "ear", "nose", "throat"], "ENT"),
    (["neuro", "neurology", "brain"], "Neurology"),
    (["onco", "oncology", "cancer"], "Oncology"),
    (["derma", "dermatology", "skin"], "Dermatology"),
    (["gastro", "gastroenterology", "stomach"], "Gastroenterology") ]

/-- `detectDept(text)`: first alias-table hit, else first canonical
department name contained in the normalized text. -/
def detectDept (text : String) : Option String :=
  let tNorm := normalize text
  match deptAliases.find? (fun a => a.1.any (fun kw => jsIncludes tNorm kw)) with
  | some a => some a.2
  | none => DEPARTMENTS.find? (fun d => jsIncludes tNorm (normalize d))

/-- `listDoctorsByDept(dept, location)`. -/
def listDoctorsByDept (dept : String) (location : String := "Gurgaon") : List Doctor :=
  DOCTORS.filter (fun x => normalize x.dept = normalize dept && normalize x.location = normalize location)

/-- Strip the `/^dr\.?\s*/i` of `findDoctorByName` from an already
normalized (lowercase) query. -/
def stripDr (l : List Char) : List Char :=
  match l with
  | 'd' :: 'r' :: rest =>
    match rest with
    | '.' :: rest2 => dropLeadWs rest2
    | _ => dropLeadWs rest
  | _ => l

/-- `findDoctorByName(query)`: normalize, strip a leading dr token,
substring-match against the directory names, capped at 5. -/
def findDoctorByName (query : String) : List Doctor :=
  let q : String := ⟨stripDr (normalize query).data⟩
  if q = "" then []
  else (DOCTORS.filter (fun d => jsIncludes (normalize d.name) q)).take 5

/-- The `wantsHuman` keyword set. -/
def wantsHumanKeywords : List String :=
  ["human", "agent", "representative", "operator", "real person", "connect me",
   "transfer", "talk to someone", "call center", "agent se", "representative se", "human se"]

/-- `wantsHuman(text)`. -/
def wantsHuman (text : String) : Bool :=
  let tNorm := normalize text
  wantsHumanKeywords.any (fun k => jsIncludes tNorm k)

/-- The `looksLikeMedicalAdvice` keyword set. -/
def medicalKeywords : List String :=
  ["fever", "pain", "chest pain", "breath", "bp", "blood pressure", "diagnose",
   "diagnosis", "treatment", "medicine", "tablet", "dose", "emergency", "vomit",
   "bleeding", "pregnant", "pregnancy", "heart attack", "stroke", "bukhar", "dard",
   "saans", "dabav", "dawai", "emergency"]

/-- `looksLikeMedicalAdvice(text)`. -/
def looksLikeMedicalAdvice (text : String) : Bool :=
  let tNorm := normalize text
  medicalKeywords.any (fun k => jsIncludes tNorm k)

/-- The `looksLikeBookingIntent` keyword set. -/
def bookingKeywords : List String :=
  ["appointment", "book", "booking", "schedule", "apartment",
   "अपॉइंटमेंट", "बुक", "कल", "aaj", "kal", "parso", "milna", "doctor se", "consult"]

/-- `looksLikeBookingIntent(text)`. -/
def looksLikeBookingIntent (text : String) : Bool :=
  let tNorm := normalize text
  bookingKeywords.any (fun k => jsIncludes tNorm (normalize k))

/-! ### Regex scanners

Each extractor's regular expression is embedded as an explicit scanner
with leftmost-match and greedy-with-backtracking semantics. -/

/-- Character class `[\d\s-]` of the loose phone pattern. -/
def phoneClassChar (c : Char) : Bool :=
  c.isDigit || jsIsSpace c || c = '-'

/-- Greedy/backtracking end position of `[\d\s-]{9,}\d` inside a maximal
class run: the largest `k` with `9 ≤ k < run.length` such that `run[k]`
is a digit (the quantifier consumes `run[0..k)`, the final `\d` takes
`run[k]`). -/
def lastFinalIdx (run : List Char) : Option Nat :=
  (List.range run.length).reverse.find? (fun k => 9 ≤ k && (run.getD k ' ').isDigit)

/-- Match `\d[\d\s-]{9,}\d` at the head of the list, returning the
matched characters. -/
def matchPhoneCore : List Char → Option (List Char)
  | [] => none
  | d :: rest =>
    if d.isDigit then
      let run := rest.takeWhile phoneClassChar
      match lastFinalIdx run with
      | some k => some (d :: run.take (k + 1))
      | none => none
    else none

/-- Match `\+?\d[\d\s-]{9,}\d` at the head of the list (the optional
`+` is tried greedily; if the core fails after `+`, the `\d` cannot
match `+` either, so the whole position fails). -/
def matchPhoneAt (l : List Char) : Option (List Char) :=
  match l with
  | '+' :: rest => (matchPhoneCore rest).map (fun m => '+' :: m)
  | _ => matchPhoneCore l

/-- Leftmost match of the loose phone pattern. -/
def scanPhone : List Char → Option (List Char)
  | [] => none
  | c :: cs => matchPhoneAt (c :: cs) <|> scanPhone cs

/-- Leftmost match of the fallback pattern `\d{10}`. -/
def find10 : List Char → Option (List Char)
  | [] => none
  | c :: cs =>
    let first := (c :: cs).take 10
    if first.length = 10 && first.all Char.isDigit then some first
    else find10 cs

/-- `extractPhone(text)`: first regex `(\+?\d[\d\s-]{9,}\d)`, else
`(\d{10})`; on a match, remove whitespace and hyphens from the matched
group (note: a leading `+` is not removed). -/
def extractPhone (text : String) : Option String :=
  match scanPhone text.data <|> find10 text.data with
  | some m => some ⟨m.filter (fun c => !(jsIsSpace c || c = '-'))⟩
  | none => none

/-- Descending backtracking search: try `f n`, `f (n-1)`, …, `f 0`. -/
def tryDesc {α : Type} (f : Nat → Option α) : Nat → Option α
  | 0 => f 0
  | n + 1 => f (n + 1) <|> tryDesc f n

/-- Case-insensitive literal match splitting off the matched segment. -/
def ciSplit : List Char → List Char → Option (List Char × List Char)
  | [], l => some ([], l)
  | _ :: _, [] => none
  | p :: ps, c :: cs =>
    if lowChar c = lowChar p then
      (ciSplit ps cs).map (fun pr => (c :: pr.1, pr.2))
    else none

/-- Character class `[A-Za-z .]` of the name group. -/
def nameClassChar (c : Char) : Bool :=
  c.isAlpha || c = ' ' || c = '.'

/-- Match the group `([A-Za-z][A-Za-z .]{1,40})\b` at the head of the
list: greedy on the bounded class run, backtracking from the longest
take until the trailing word boundary holds. -/
def matchNameGroup (l : List Char) : Option (List Char) :=
  match l with
  | [] => none
  | a :: rest =>
    if a.isAlpha then
      let run := rest.takeWhile nameClassChar
      let after := rest.drop run.length
      let maxTake := min run.length 40
      tryDesc (fun k =>
        if k = 0 then none
        else
          let lastC := run.getD (k - 1) ' '
          let nextC : Option Char :=
            if k < run.length then some (run.getD k ' ') else after.head?
          if jsBoundary (some lastC) nextC then some (a :: run.take k) else none) maxTake
    else none

/-- `\s*` then the name group (backtracking over the whitespace run). -/
def nameAfterWs3 (l : List Char) : Option (List Char) :=
  tryDesc (fun w => matchNameGroup (l.drop w)) (l.takeWhile jsIsSpace).length

/-- `[:\-]?` then `\s*` then the name group. -/
def nameAfterPunct (l : List Char) : Option (List Char) :=
  (match l with
   | c :: cs => if c = ':' || c = '-' then nameAfterWs3 cs else none
   | [] => none) <|> nameAfterWs3 l

/-- `\s*` then `[:\-]?\s*` then the name group. -/
def nameAfterWs2 (l : List Char) : Option (List Char) :=
  tryDesc (fun w => nameAfterPunct (l.drop w)) (l.takeWhile jsIsSpace).length

/-- `(is)?` then `\s*[:\-]?\s*` then the name group (the optional
group is tried present-first, as the regex engine does). -/
def nameAfterIs (l : List Char) : Option (List Char) :=
  (match ciSplit ['i', 's'] l with
   | some pr => nameAfterWs2 pr.2
   | none => none) <|> nameAfterWs2 l

/-- The common tail `\s*(is)?\s*[:\-]?\s*([A-Za-z][A-Za-z .]{1,40})\b`
of both name patterns, returning the group-2 characters. -/
def matchNameTail (l : List Char) : Option (List Char) :=
  tryDesc (fun w => nameAfterIs (l.drop w)) (l.takeWhile jsIsSpace).length

/-- Leftmost match of `\bname\s*(is)?\s*[:\-]?\s*(group)\b` (/i),
returning the group. -/
def scanName1 (prev : Option Char) : List Char → Option (List Char)
  | [] => none
  | c :: cs =>
    (if jsBoundary prev (some c) then
       match ciSplit ['n', 'a', 'm', 'e'] (c :: cs) with
       | some pr => matchNameTail pr.2
       | none => none
     else none) <|> scanName1 (some c) cs

/-- After the literal `patient`: `\s*name` then the common tail. -/
def matchPatientTail (l : List Char) : Option (List Char) :=
  tryDesc (fun w =>
    match ciSplit ['n', 'a', 'm', 'e'] (l.drop w) with
    | some pr => matchNameTail pr.2
    | none => none) (l.takeWhile jsIsSpace).length

/-- Leftmost match of `\bpatient\s*name\s*(is)?\s*[:\-]?\s*(group)\b`
(/i), returning the group. -/
def scanName2 (prev : Option Char) : List Char → Option (List Char)
  | [] => none
  | c :: cs =>
    (if jsBoundary prev (some c) then
       match ciSplit ['p', 'a', 't', 'i', 'e', 'n', 't'] (c :: cs) with
       | some pr => matchPatientTail pr.2
       | none => none
     else none) <|> scanName2 (some c) cs

/-- `extractName(text)`: the `name is X` pattern, else the
`patient name X` pattern; the group is trimmed. -/
def extractName (text : String) : Option String :=
  let raw := jsTrim text
  match scanName1 none raw.data with
  | some g => some ⟨jsTrimL g⟩
  | none =>
    match scanName2 none raw.data with
    | some g => some ⟨jsTrimL g⟩
    | none => none

/-- One clock match: the hour digits, the optional minute digits, and
the total matched length. -/
structure ClockMatch where
  hh : List Char
  mm : Option (List Char)
  len : Nat
deriving Repr

/-- Try the meridiem alternatives in order (case-insensitively), each
with its trailing `\b`. -/
def matchAltB (alts : List (List Char)) (l : List Char) : Option (List Char × List Char) :=
  match alts with
  | [] => none
  | a :: rest =>
    (match ciSplit a l with
     | some pr =>
       if jsBoundary pr.1.getLast? pr.2.head? then some pr else none
     | none => none) <|> matchAltB rest l

/-- After the hour digits: `(?::(\d{2}))?\s*(alt)\b`, minutes-present
tried first.  Shortening the greedy `\s*` run would place the
alternative at a whitespace character, which cannot start any of the
meridiem alternatives, so only the maximal run is tried. -/
def clockAfterDigits (alts : List (List Char)) (hh : List Char) (rest : List Char) :
    Option ClockMatch :=
  (match rest with
   | ':' :: d1 :: d2 :: rest2 =>
     if d1.isDigit && d2.isDigit then
       let ws := rest2.takeWhile jsIsSpace
       let rest3 := rest2.drop ws.length
       match matchAltB alts rest3 with
       | some pr => some ⟨hh, some [d1, d2], hh.length + 3 + ws.length + pr.1.length⟩
       | none => none
     else none
   | _ => none) <|>
  (let ws := rest.takeWhile jsIsSpace
   let rest3 := rest.drop ws.length
   match matchAltB alts rest3 with
   | some pr => some ⟨hh, none, hh.length + ws.length + pr.1.length⟩
   | none => none)

/-- Match `\b(\d{1,2})(?::(\d{2}))?\s*(alt)\b` at the head of the list
(two hour digits tried before one). -/
def matchClockAt (alts : List (List Char)) (prev : Option Char) :
    List Char → Option ClockMatch
  | [] => none
  | c :: cs =>
    if c.isDigit && jsBoundary prev (some c) then
      (match cs with
       | d2 :: rest2 =>
         if d2.isDigit then clockAfterDigits alts [c, d2] rest2 else none
       | [] => none) <|> clockAfterDigits alts [c] cs
    else none

/-- Existence test for the clock pattern anywhere in the list. -/
def scanClockTest (alts : List (List Char)) (prev : Option Char) : List Char → Bool
  | [] => false
  | c :: cs => (matchClockAt alts prev (c :: cs)).isSome || scanClockTest alts (some c) cs

/-- Tail `(:\d{2})\b` of the bare hour:minute pattern. -/
def hmTail : List Char → Bool
  | ':' :: e1 :: e2 :: rest => e1.isDigit && e2.isDigit && jsBoundary (some e2) rest.head?
  | _ => false

/-- Match `\b\d{1,2}(:\d{2})\b` at the head of the list. -/
def matchHMAt (prev : Option Char) (l : List Char) : Bool :=
  match l with
  | c :: cs =>
    if c.isDigit && jsBoundary prev (some c) then
      (match cs with
       | d2 :: rest2 => (d2.isDigit && hmTail rest2) || hmTail cs
       | [] => false)
    else false
  | [] => false

/-- Existence test for `\b\d{1,2}(:\d{2})\b` anywhere in the list. -/
def scanHM (prev : Option Char) : List Char → Bool
  | [] => false
  | c :: cs => matchHMAt prev (c :: cs) || scanHM (some c) cs

/-- Match one day alternative with its surrounding `\b`s, then the
greedy tail `[^.]{0,40}`. -/
def matchDayAt (alts : List (List Char)) (prev : Option Char) (l : List Char) :
    Option (List Char) :=
  if jsBoundary prev l.head? then
    match matchAltB alts l with
    | some pr => some (pr.1 ++ (pr.2.takeWhile (fun c => c ≠ '.')).take 40)
    | none => none
  else none

/-- Leftmost match of the day pattern. -/
def scanDay (alts : List (List Char)) (prev : Option Char) : List Char → Option (List Char)
  | [] => none
  | c :: cs => matchDayAt alts prev (c :: cs) <|> scanDay alts (some c) cs

/-- Match one word alternative with its surrounding `\b`s. -/
def matchWordAt (alts : List (List Char)) (prev : Option Char) (l : List Char) :
    Option (List Char) :=
  if jsBoundary prev l.head? then (matchAltB alts l).map (fun pr => pr.1) else none

/-- Leftmost match of a word-alternation pattern. -/
def scanWord (alts : List (List Char)) (prev : Option Char) : List Char → Option (List Char)
  | [] => none
  | c :: cs => matchWordAt alts prev (c :: cs) <|> scanWord alts (some c) cs

/-- The `timeWords` gate list of `extractPreferredTime`. -/
def timeWords : List String :=
  ["morning", "evening", "afternoon", "night", "a.m.", "p.m.", "am", "pm",
   "subah", "shaam", "dopahar", "raat", "सुबह", "शाम", "दोपहर", "रात"]

/-- The `dayWords` gate list of `extractPreferredTime`. -/
def dayWords : List String :=
  ["today", "tomorrow", "monday", "tuesday", "wednesday", "thursday", "friday",
   "saturday", "sunday", "aaj", "kal", "parso", "आज", "कल", "परसों"]

/-- The meridiem alternation `(am|pm|a\.m\.|p\.m\.)` of the clock test. -/
def ampmAlts : List (List Char) :=
  [['a', 'm'], ['p', 'm'], "a.m.".data, "p.m.".data]

/-- The day alternation of the preferred-time extraction regex. -/
def dayAltList : List (List Char) :=
  (["today", "tomorrow", "monday", "tuesday", "wednesday", "thursday", "friday",
    "saturday", "sunday", "aaj", "kal", "parso", "आज", "कल", "परसों"]).map String.data

/-- The time-of-day alternation of the fallback extraction regex. -/
def todAltList : List (List Char) :=
  (["morning", "evening", "afternoon", "night", "subah", "shaam", "dopahar",
    "raat", "सुबह", "शाम", "दोपहर", "रात"]).map String.data

/-- `extractPreferredTime(text)`: gate on a day word, a time-of-day
word or a clock pattern; then the smallest leading match of the day
pattern (with up to 40 following non-period characters), else the
time-of-day word, else the whole utterance; trimmed. -/
def extractPreferredTime (text : String) : Option String :=
  let raw := jsTrim text
  let tNorm := normalize raw
  let hasDay := dayWords.any (fun d => jsIncludes tNorm (normalize d))
  let hasTimeWord := timeWords.any (fun w => jsIncludes tNorm (normalize w))
  let hasClock := scanClockTest ampmAlts none raw.data || scanHM none raw.data
  if !(hasDay || hasTimeWord || hasClock) then none
  else
    match scanDay dayAltList none raw.data <|> scanWord todAltList none raw.data with
    | some m0 => some ⟨jsTrimL m0⟩
    | none => some ⟨jsTrimL raw.data⟩

/-! ### Global replacement (for `slotToHindi`) -/

/-- Global case-insensitive literal replacement, optionally requiring
word boundaries around the pattern (fuel-driven; the fuel is the input
length, and every step consumes at least one character). -/
def replaceLitGo (pat : List Char) (useB : Bool) (repl : List Char) :
    Nat → Option Char → List Char → List Char
  | 0, _, l => l
  | _ + 1, _, [] => []
  | fuel + 1, prev, c :: cs =>
    match (if !useB || jsBoundary prev (some c) then ciSplit pat (c :: cs) else none) with
    | some pr =>
      if !useB || jsBoundary pr.1.getLast? pr.2.head? then
        repl ++ replaceLitGo pat useB repl fuel pr.1.getLast? pr.2
      else c :: replaceLitGo pat useB repl fuel (some c) cs
    | none => c :: replaceLitGo pat useB repl fuel (some c) cs

/-- String-level wrapper of `replaceLitGo`. -/
def replaceLit (s : String) (pat : String) (useB : Bool) (repl : String) : String :=
  ⟨replaceLitGo pat.data useB repl.data s.data.length none s.data⟩

/-- Global replacement of the clock pattern, with a replacement
function of the hour and optional minute digits. -/
def replaceClockGo (alts : List (List Char)) (repl : List Char → Option (List Char) → List Char) :
    Nat → Option Char → List Char → List Char
  | 0, _, l => l
  | _ + 1, _, [] => []
  | fuel + 1, prev, c :: cs =>
    match matchClockAt alts prev (c :: cs) with
    | some m =>
      repl m.hh m.mm ++
        replaceClockGo alts repl fuel ((c :: cs).take m.len).getLast? ((c :: cs).drop m.len)
    | none => c :: replaceClockGo alts repl fuel (some c) cs

/-- String-level wrapper of `replaceClockGo`. -/
def replaceClock (s : String) (alts : List (List Char))
    (repl : List Char → Option (List Char) → List Char) : String :=
  ⟨replaceClockGo alts repl s.data.length none s.data⟩

/-- Value of a digit string. -/
def digitsToNat (l : List Char) : Nat :=
  l.foldl (fun n c => n * 10 + (c.toNat - 48)) 0

/-- The AM replacement `सुबह ${hh}${m} बजे`. -/
def amRepl (hh : List Char) (mm : Option (List Char)) : List Char :=
  "सुबह ".data ++ hh ++ (match mm with | some m => ':' :: m | none => []) ++ " बजे".data

/-- The PM replacement with its hour bucketing. -/
def pmRepl (hh : List Char) (mm : Option (List Char)) : List Char :=
  let h := digitsToNat hh
  let m : List Char := match mm with | some x => ':' :: x | none => []
  if h = 12 then "दोपहर 12".data ++ m ++ " बजे".data
  else if 1 ≤ h && h ≤ 4 then ("दोपहर " ++ toString h).data ++ m ++ " बजे".data
  else if 5 ≤ h && h ≤ 7 then ("शाम " ++ toString h).data ++ m ++ " बजे".data
  else ("रात " ++ toString h).data ++ m ++ " बजे".data

/-- `slotToHindi(slot)`: trim, replace the day tokens by their Hindi
equivalents, then the AM clock pattern, then the PM clock pattern. -/
def slotToHindi (slot : String) : String :=
  let s0 := jsTrim slot
  if s0 = "" then s0
  else
    let s1 := replaceLit s0 "day after tomorrow" false "परसों"
    let s2 := replaceLit s1 "tomorrow" true "कल"
    let s3 := replaceLit s2 "today" true "आज"
    let s4 := replaceLit s3 "thursday" true "गुरुवार"
    let s5 := replaceLit s4 "friday" true "शुक्रवार"
    let s6 := replaceLit s5 "saturday" true "शनिवार"
    let s7 := replaceLit s6 "sunday" true "रविवार"
    let s8 := replaceLit s7 "monday" true "सोमवार"
    let s9 := replaceLit s8 "tuesday" true "मंगलवार"
    let s10 := replaceLit s9 "wednesday" true "बुधवार"
    let s11 := replaceClock s10 ["am".data, "a.m.".data] amRepl
    replaceClock s11 ["pm".data, "p.m.".data] pmRepl

/-- JS `parseInt(s, 10)` (`none` = `NaN`). -/
def jsParseInt (s : String) : Option Int :=
  let l := dropLeadWs s.data
  let signed : Int × List Char :=
    match l with
    | '-' :: r => (-1, r)
    | '+' :: r => (1, r)
    | _ => (1, l)
  let ds := signed.2.takeWhile Char.isDigit
  if ds = [] then none else some (signed.1 * (digitsToNat ds : Int))

/-- JS `String.prototype.indexOf` (`none` = `-1`). -/
def jsIndexOfGo (pat : List Char) : List Char → Nat → Option Nat
  | [], i => if isPrefixL pat [] then some i else none
  | c :: cs, i => if isPrefixL pat (c :: cs) then some i else jsIndexOfGo pat cs (i + 1)

/-- JS `String.prototype.indexOf`. -/
def jsIndexOf (s pat : String) : Option Nat := jsIndexOfGo pat.data s.data 0

/-- JS `String.prototype.slice(i)` for a non-negative index. -/
def jsSliceFrom (s : String) (i : Nat) : String := ⟨s.data.drop i⟩

/-- JS `String.prototype.toUpperCase` (ASCII range). -/
def jsToUpper (s : String) : String := ⟨s.data.map Char.toUpper⟩

/-- JS `a || b` on strings (`""` falsy). -/
def jsOrS (a b : String) : String := if a = "" then b else a

/-- JS `a || b` for a nullable string `a` (`null` and `""` falsy). -/
def jsOrOpt (a : Option String) (b : String) : String :=
  match a with
  | some v => if v = "" then b else v
  | none => b

/-! ### The session store and the dialogue engine -/

/-- The per-call slot map `session.data`; the empty string stands for
a missing (`undefined`) value, exactly as the code's truthiness checks
treat both. -/
structure SlotData where
  patientName : String := ""
  phone : String := ""
  doctorName : String := ""
  dept : String := ""
  preferredTime : String := ""
  confirmationId : String := ""
deriving Repr, DecidableEq

/-- A patch of the slot map: `none` = key absent from the patch. -/
structure SlotPatch where
  patientName : Option String := none
  phone : Option String := none
  doctorName : Option String := none
  dept : Option String := none
  preferredTime : Option String := none
  confirmationId : Option String := none
deriving Repr, DecidableEq

/-- One call session: `{ mode, state, lang, data }`. -/
structure Session where
  mode : String
  state : String
  lang : Option String
  data : SlotData
deriving Repr, DecidableEq

/-- A patch of the session: `none` = key absent (`lang` may be
patched to `null`, hence the nested option). -/
structure SessionPatch where
  mode : Option String := none
  state : Option String := none
  lang : Option (Option String) := none
  data : SlotPatch := {}
deriving Repr, DecidableEq

/-- The spread `{ ...(s.data || {}), ...(patch.data || {}) }`. -/
def mergeData (d : SlotData) (p : SlotPatch) : SlotData where
  patientName := p.patientName.getD d.patientName
  phone := p.phone.getD d.phone
  doctorName := p.doctorName.getD d.doctorName
  dept := p.dept.getD d.dept
  preferredTime := p.preferredTime.getD d.preferredTime
  confirmationId := p.confirmationId.getD d.confirmationId

/-- `setSession(callSid, patch)`: shallow spread of the session with a
one-level-deep merge of `data`. -/
def setSession (s : Session) (p : SessionPatch) : Session where
  mode := p.mode.getD s.mode
  state := p.state.getD s.state
  lang := p.lang.getD s.lang
  data := mergeData s.data p.data

/-- The configuration and external collaborators of one turn: the
`MODE`/`HOSPITAL_NAME`/`ENABLE_POLISH`/API-key environment, and the
paraphrasing LLM modelled as an oracle from (Hindi-style?, prompt) to
its trimmed reply (`none` = the call threw or returned no content). -/
structure TurnCfg where
  modeEnv : String := "education"
  hospitalName : String := "Medanta"
  enablePolish : Bool := false
  hasApiKey : Bool := true
  polishOracle : Bool → String → Option String := fun _ _ => none

/-- The session created by a lazy `getSession` miss. -/
def freshSession (cfg : TurnCfg) : Session :=
  { mode := cfg.modeEnv, state := "NEW", lang := none, data := {} }

/-- The `setSession` performed by `/welcome` for a given mode. -/
def welcomeSession (cfg : TurnCfg) (mode : String) : Session :=
  setSession (freshSession cfg)
    { mode := some mode, state := some "NEW",
      lang := some (if mode = "hospital" then some "en-IN" else none), data := {} }

/-- `getSttLang(callSid)`. -/
def getSttLang (cfg : TurnCfg) (s : Session) : String :=
  if jsOrS s.mode cfg.modeEnv = "hospital" then jsOrOpt s.lang "en-IN" else "en-US"

/-- `isHi(callSid)`. -/
def isHi (cfg : TurnCfg) (s : Session) : Bool :=
  getSttLang cfg s = "hi-IN"

/-- `t(callSid, en, hi)`. -/
def tSel (cfg : TurnCfg) (s : Session) (en hi : String) : String :=
  if isHi cfg s then hi else en

/-- `captureNamePhone(callSid, utterance)`: run the phone and name
extractors and fill only the currently empty slots. -/
def captureNamePhone (s : Session) (utterance : String) : Session :=
  let phone := extractPhone utterance
  let name := extractName utterance
  let pPhone : Option String :=
    match phone with
    | some v => if v ≠ "" && s.data.phone = "" then some v else none
    | none => none
  let pName : Option String :=
    match name with
    | some v => if v ≠ "" && s.data.patientName = "" then some v else none
    | none => none
  if pPhone = none && pName = none then s
  else setSession s { data := { phone := pPhone, patientName := pName } }

/-- The skip-list test of `hospitalPolish`: collection-critical
phrases that must never be reworded. -/
def polishSkip (raw : String) : Bool :=
  let lower : String := ⟨raw.data.map lowChar⟩
  jsIncludes lower "full name" || jsIncludes lower "mobile" || jsIncludes lower "10-digit" ||
  jsIncludes lower "phone" || jsIncludes lower "patient" || jsIncludes lower "कृपया" ||
  jsIncludes lower "मोबाइल" || jsIncludes lower "अंकों"

/-- `hospitalPolish(callSid, raw)`: identity when polish is disabled,
unconfigured, the message hits the skip list, the LLM call errors, or
its reply trims to empty; otherwise the trimmed LLM reply. -/
def hospitalPolish (cfg : TurnCfg) (s : Session) (raw : String) : String :=
  if !cfg.enablePolish then raw
  else if !cfg.hasApiKey then raw
  else if polishSkip raw then raw
  else
    match cfg.polishOracle (isHi cfg s) raw with
    | none => raw
    | some content => let out := jsTrim content; if out = "" then raw else out

/-- `pickSlots(callSid, d)`. -/
def pickSlots (cfg : TurnCfg) (s : Session) (d : Doctor) : String :=
  let slots := d.nextSlots.take 3
  if slots = [] then
    if isHi cfg s then "अगले उपलब्ध स्लॉट बुकिंग टीम साझा करेगी।"
    else "Next available slots will be shared by the booking team."
  else if isHi cfg s then
    "अगले उपलब्ध स्लॉट: " ++ String.intercalate ", " (slots.map slotToHindi) ++ "।"
  else "Next available: " ++ String.intercalate ", " slots ++ "."

/-- The deterministic confirmation message of `buildConfirmation`,
composed from whichever slots are populated; the preferred time is
inserted at exactly one place of either template. -/
def confMessage (hi : Bool) (patientName doctorName dept preferredTime confirmationId phone : String) :
    String :=
  if hi then
    "ठीक है। आपकी अपॉइंटमेंट रिक्वेस्ट दर्ज हो गई है। " ++
    (if patientName ≠ "" then "मरीज़: " ++ patientName ++ ". " else "") ++
    (if doctorName ≠ "" then "डॉक्टर: " ++ doctorName ++ ". "
     else if dept ≠ "" then "विभाग: " ++ dept ++ ". " else "") ++
    (if preferredTime ≠ "" then "पसंदीदा समय: " ++ preferredTime ++ ". " else "") ++
    "कन्फर्मेशन आईडी: " ++ confirmationId ++ ". " ++
    (if phone ≠ "" then "कन्फर्मेशन " ++ phone ++ " पर भेजा जाएगा।"
     else "कन्फर्मेशन आपके नंबर पर भेजा जाएगा।")
  else
    "Done. I’ve raised an appointment request for " ++ jsOrS patientName "the patient" ++ " " ++
    (if doctorName ≠ "" then "with " ++ doctorName else "") ++
    (if dept ≠ "" then " in " ++ dept else "") ++ ". " ++
    (if preferredTime ≠ "" then "Preferred time: " ++ preferredTime ++ ". " else "") ++
    "Confirmation ID is " ++ confirmationId ++ ". You will receive confirmation on " ++
    jsOrS phone "your number" ++ "."

/-- The result of one dialogue-engine invocation, with the updated
session threaded explicitly. -/
structure TurnResult where
  say : String
  transfer : Bool
  session : Session
deriving Repr

/-- `buildConfirmation(callSid, preferredTimeOverride)`: choose the
single preferred-time value, mint the confirmation id (`hex` stands
for the random hex slice), mark the session `CONFIRMED`, persist the
two values, and compose the message. -/
def buildConfirmation (cfg : TurnCfg) (hex : String) (s : Session) (overrideTime : String) :
    TurnResult :=
  let preferredTime := jsTrim (jsOrS (jsOrS overrideTime s.data.preferredTime) "")
  let confirmationId := "APT-" ++ jsToUpper hex
  let s' := setSession s
    { state := some "CONFIRMED",
      data := { preferredTime := some preferredTime, confirmationId := some confirmationId } }
  let base := confMessage (isHi cfg s') s.data.patientName s.data.doctorName s.data.dept
    preferredTime confirmationId s.data.phone
  { say := hospitalPolish cfg s' base, transfer := false, session := s' }

/-- The fixed handoff message of the escalation branch. -/
def handoffMsg (cfg : TurnCfg) (s : Session) : String :=
  tSel cfg s "Sure. I’m connecting you to a human representative now."
    "ज़रूर। मैं आपको अभी एक मानव प्रतिनिधि से जोड़ रहा/रही हूँ।"

/-- The booking response once a single doctor has been resolved from a
doctor-name query (states the department). -/
def bookDoctorDeptMsg (cfg : TurnCfg) (s : Session) (d : Doctor) : String :=
  if isHi cfg s then
    "ठीक है। " ++ d.name ++ " " ++ d.dept ++ " विभाग में हैं। " ++ pickSlots cfg s d ++
      " बुक करने के लिए कृपया मरीज़ का पूरा नाम बताइए।"
  else
    "Sure. " ++ d.name ++ " is in " ++ d.dept ++ ". " ++ pickSlots cfg s d ++
      " To book, please tell me the patient’s full name."

/-- The booking response of the `ASK_BOOK_OR_LIST_MORE` selection. -/
def bookDoctorMsg (cfg : TurnCfg) (s : Session) (d : Doctor) : String :=
  if isHi cfg s then
    "ठीक है। " ++ d.name ++ "। " ++ pickSlots cfg s d ++
      " बुक करने के लिए कृपया मरीज़ का पूरा नाम बताइए।"
  else
    "Sure. " ++ d.name ++ ". " ++ pickSlots cfg s d ++
      " To book, please tell me the patient’s full name."

/-- The `COLLECT_NAME` branch of the state machine. -/
def collectNameStep (cfg : TurnCfg) (hex : String) (s2 : Session) (tRaw : String) : TurnResult :=
  if s2.data.patientName ≠ "" && s2.data.phone ≠ "" then
    let time := jsOrS s2.data.preferredTime ((extractPreferredTime tRaw).getD "")
    if time ≠ "" then buildConfirmation cfg hex s2 time
    else
      let s4 := setSession s2 { state := some "COLLECT_TIME" }
      { say := hospitalPolish cfg s4 (tSel cfg s4 "Great. What day or time do you prefer?"
          "बहुत बढ़िया। आप किस दिन या किस समय आना चाहेंगे?"),
        transfer := false, session := s4 }
  else if s2.data.patientName = "" then
    { say := hospitalPolish cfg s2 (tSel cfg s2 "Please tell me the patient’s full name."
        "कृपया मरीज़ का पूरा नाम बताइए।"),
      transfer := false, session := s2 }
  else
    let s4 := setSession s2 { state := some "COLLECT_PHONE" }
    { say := hospitalPolish cfg s4 (tSel cfg s4
        "Thanks. Please tell me your 10-digit mobile number for confirmation."
        "धन्यवाद। कन्फर्मेशन के लिए अपना 10 अंकों का मोबाइल नंबर बताइए।"),
      transfer := false, session := s4 }

/-- The `COLLECT_PHONE` branch of the state machine. -/
def collectPhoneStep (cfg : TurnCfg) (hex : String) (s2 : Session) : TurnResult :=
  if s2.data.phone = "" then
    { say := hospitalPolish cfg s2 (tSel cfg s2
        "Sorry, I didn’t catch the number. Please say the 10-digit mobile number again."
        "माफ़ कीजिए, नंबर साफ़ नहीं मिला। कृपया 10 अंकों का मोबाइल नंबर दोबारा बताइए।"),
      transfer := false, session := s2 }
  else
    let alreadyTime := jsTrim (jsOrS s2.data.preferredTime "")
    if alreadyTime ≠ "" then buildConfirmation cfg hex s2 alreadyTime
    else
      let s4 := setSession s2 { state := some "COLLECT_TIME" }
      { say := hospitalPolish cfg s4 (tSel cfg s4
          "Great. What day or time do you prefer? For example, tomorrow evening or Friday morning."
          "बहुत बढ़िया। आप किस दिन या किस समय आना चाहेंगे? जैसे कल शाम या शुक्रवार सुबह।"),
        transfer := false, session := s4 }

/-- The `COLLECT_TIME` branch of the state machine. -/
def collectTimeStep (cfg : TurnCfg) (hex : String) (s2 : Session) (tRaw : String) : TurnResult :=
  let time := jsOrS ((extractPreferredTime tRaw).getD "") tRaw
  let s4 := setSession s2 { data := { preferredTime := some time } }
  buildConfirmation cfg hex s4 time

/-- The routing section: doctor-name queries, department queries, the
`ASK_BOOK_OR_LIST_MORE` selection, and the final generic prompt.
`s0` is the stale session snapshot read at the top of the handler
(used for `session.data?.dept` and `session.state`), `sc` the current
session. -/
def routeStep (cfg : TurnCfg) (_hex : String) (s0 sc : Session) (tRaw norm : String) : TurnResult :=
  let dept := detectDept tRaw
  let hasDr := jsIncludes norm "dr " || jsIncludes norm "dr." || jsIncludes norm "doctor "
  if hasDr then
    let q :=
      match jsIndexOf norm "doctor" with
      | some idx2 => jsTrim (jsSliceFrom tRaw (idx2 + 6))
      | none =>
        match jsIndexOf norm "dr" with
        | some idx => jsTrim (jsSliceFrom tRaw (idx + 2))
        | none => tRaw
    match findDoctorByName q with
    | [d] =>
      let s' := setSession sc
        { state := some "COLLECT_NAME",
          data := { doctorName := some d.name, dept := some d.dept } }
      { say := hospitalPolish cfg s' (bookDoctorDeptMsg cfg s' d), transfer := false, session := s' }
    | _ =>
      { say := hospitalPolish cfg sc (tSel cfg sc
          "I couldn’t find that doctor. Please say the department."
          "माफ़ कीजिए, वह डॉक्टर नहीं मिला। कृपया विभाग बताइए।"),
        transfer := false, session := sc }
  else match dept with
  | some dv =>
    let docs := listDoctorsByDept dv "Gurgaon"
    if docs = [] then
      { say := hospitalPolish cfg sc (tSel cfg sc
          ("I don’t have doctors listed for " ++ dv ++ ". Would you like to connect to an agent?")
          ("इस समय " ++ dv ++ " के डॉक्टरों की सूची उपलब्ध नहीं है। क्या आप एजेंट से बात करना चाहेंगे?")),
        transfer := false, session := sc }
    else
      let s' := setSession sc { state := some "ASK_BOOK_OR_LIST_MORE", data := { dept := some dv } }
      let names := String.intercalate ", "
        ((docs.take 3).enum.map (fun p => p.2.name ++ " (" ++ toString (p.1 + 1) ++ ")"))
      let msg :=
        if isHi cfg s' then
          dv ++ " के डॉक्टर हैं: " ++ names ++ "। आप किससे अपॉइंटमेंट लेना चाहेंगे? आप डॉक्टर का नाम या 1/2 बोल सकते हैं।"
        else
          dv ++ " doctors include " ++ names ++
            ". Which one would you like to book? You can say the doctor’s name or 1/2."
      { say := hospitalPolish cfg s' msg, transfer := false, session := s' }
  | none =>
    if s0.state = "ASK_BOOK_OR_LIST_MORE" then
      let numSel : Option Doctor :=
        match jsParseInt norm with
        | some num =>
          let docs := if s0.data.dept ≠ "" then listDoctorsByDept s0.data.dept "Gurgaon" else []
          if num ≥ 1 then docs.get? (num - 1).toNat else none
        | none => none
      match numSel with
      | some d =>
        let s' := setSession sc
          { state := some "COLLECT_NAME",
            data := { doctorName := some d.name, dept := some d.dept } }
        { say := hospitalPolish cfg s' (bookDoctorMsg cfg s' d), transfer := false, session := s' }
      | none =>
        match findDoctorByName tRaw with
        | [d] =>
          let s' := setSession sc
            { state := some "COLLECT_NAME",
              data := { doctorName := some d.name, dept := some d.dept } }
          { say := hospitalPolish cfg s' (bookDoctorMsg cfg s' d), transfer := false, session := s' }
        | _ =>
          { say := hospitalPolish cfg sc (tSel cfg sc
              "Please say the full doctor name (or 1/2), or say agent."
              "कृपया डॉक्टर का पूरा नाम (या 1/2) बताइए, या ‘एजेंट’ बोलिए।"),
            transfer := false, session := sc }
    else
      { say := hospitalPolish cfg sc (tSel cfg sc
          ("I can help with appointments at " ++ cfg.hospitalName ++
            ". Say a department like cardiology, or say Dr followed by the doctor’s name, or say agent.")
          ("मैं " ++ cfg.hospitalName ++
            " में अपॉइंटमेंट में मदद कर सकता/सकती हूँ। विभाग बोलिए जैसे कार्डियोलॉजी, या “Dr” के साथ डॉक्टर का नाम, या “एजेंट”।")),
        transfer := false, session := sc }

/-- The state-machine dispatch after the global pre-state checks:
`s0` is the stale snapshot read at the top of the handler, `s2` the
session after the language and capture updates. -/
def stateStep (cfg : TurnCfg) (hex : String) (s0 s2 : Session) (tRaw norm : String) : TurnResult :=
  if s0.state = "NEW" then
    let dept := detectDept tRaw
    let hasDr := jsIncludes norm "dr " || jsIncludes norm "dr." || jsIncludes norm "doctor "
    let time := extractPreferredTime tRaw
    let s3 :=
      match time with
      | some tv =>
        if tv ≠ "" && s0.data.preferredTime = "" then
          setSession s2 { data := { preferredTime := some tv } }
        else s2
      | none => s2
    if dept = none && !hasDr then
      if looksLikeBookingIntent tRaw then
        { say := hospitalPolish cfg s3 (tSel cfg s3
            "Sure. Which department do you need? For example Cardiology, Orthopedics or ENT. Or say “Dr” and the doctor’s name."
            "ज़रूर। आपको किस विभाग में अपॉइंटमेंट चाहिए? जैसे कार्डियोलॉजी, ऑर्थोपेडिक्स या ईएनटी। या “Dr” बोलकर डॉक्टर का नाम बताइए।"),
          transfer := false, session := s3 }
      else
        { say := hospitalPolish cfg s3 (tSel cfg s3
            ("I can help with appointments at " ++ cfg.hospitalName ++
              ". Please say the department (like Cardiology) or the doctor’s name.")
            ("मैं " ++ cfg.hospitalName ++
              " में अपॉइंटमेंट में मदद कर सकता/सकती हूँ। कृपया विभाग (जैसे कार्डियोलॉजी) या डॉक्टर का नाम बताइए।")),
          transfer := false, session := s3 }
    else routeStep cfg hex s0 s3 tRaw norm
  else if s0.state = "COLLECT_NAME" then collectNameStep cfg hex s2 tRaw
  else if s0.state = "COLLECT_PHONE" then collectPhoneStep cfg hex s2
  else if s0.state = "COLLECT_TIME" then collectTimeStep cfg hex s2 tRaw
  else routeStep cfg hex s0 s2 tRaw norm

/-- The language-preference update: `if (pref) setSession({lang: pref})`,
performed both by the routes before invoking the engine and by the
engine itself at the top of a turn. -/
def applyLangPref (s : Session) (speech : String) : Session :=
  match detectLangPreference speech with
  | some p => setSession s { lang := some (some p) }
  | none => s

/-- `getAIAnswerHospital(callSid, userText)`: one dialogue-engine
turn — trim, language lock, opportunistic name/phone capture, the
escalation check, then the state machine. -/
def getAIAnswerHospital (cfg : TurnCfg) (hex : String) (s0 : Session) (userText : String) :
    TurnResult :=
  let tRaw := jsTrim userText
  let norm := normalize tRaw
  let s1 := applyLangPref s0 tRaw
  let s2 := captureNamePhone s1 tRaw
  if wantsHuman tRaw || looksLikeMedicalAdvice tRaw then
    { say := hospitalPolish cfg s2 (handoffMsg cfg s2), transfer := true, session := s2 }
  else stateStep cfg hex s0 s2 tRaw norm

/-- One `/handle-input` turn: the route-level language update followed
by the dialogue engine. -/
def handleInput (cfg : TurnCfg) (hex : String) (s : Session) (speech : String) : TurnResult :=
  getAIAnswerHospital cfg hex (applyLangPref s speech) speech

/-- A sequence of turns of one call; each turn carries its random hex
slice and its utterance. -/
def processTurns (cfg : TurnCfg) (s : Session) : List (String × String) → Session
  | [] => s
  | (hex, u) :: rest => processTurns cfg (handleInput cfg hex s u).session rest

/-! ### Specification-side predicates used by the claims -/

/-- The spec-side notion of a phone hit: the text contains a contiguous
run of 10 digits. -/
def hasTenDigitRun (s : String) : Prop :=
  ∃ l m r : List Char, s.data = l ++ m ++ r ∧ m.length = 10 ∧ ∀ c ∈ m, c.isDigit = true

/-- The PM hour bucketing of `slotToHindi`. -/
def pmBucketWord (h : Nat) : String :=
  if h = 12 then "दोपहर"
  else if 1 ≤ h ∧ h ≤ 4 then "दोपहर"
  else if 5 ≤ h ∧ h ≤ 7 then "शाम"
  else "रात"

/-- A slot value is "blank-or-solid": either unset or holding
non-whitespace content.  Every value the engine ever writes into a
slot satisfies this, so along real calls `≠ ""` and "trims non-empty"
coincide. -/
def GoodVal (x : String) : Prop := x = "" ∨ jsTrim x ≠ ""

/-- All six slots are blank-or-solid. -/
def GoodSlots (d : SlotData) : Prop :=
  GoodVal d.patientName ∧ GoodVal d.phone ∧ GoodVal d.doctorName ∧
  GoodVal d.dept ∧ GoodVal d.preferredTime ∧ GoodVal d.confirmationId

/-- Slot monotonicity: a slot with non-whitespace content keeps
non-whitespace content. -/
def SlotsMono (d d' : SlotData) : Prop :=
  (jsTrim d.patientName ≠ "" → jsTrim d'.patientName ≠ "") ∧
  (jsTrim d.phone ≠ "" → jsTrim d'.phone ≠ "") ∧
  (jsTrim d.doctorName ≠ "" → jsTrim d'.doctorName ≠ "") ∧
  (jsTrim d.dept ≠ "" → jsTrim d'.dept ≠ "") ∧
  (jsTrim d.preferredTime ≠ "" → jsTrim d'.preferredTime ≠ "") ∧
  (jsTrim d.confirmationId ≠ "" → jsTrim d'.confirmationId ≠ "")

/-- What one engine invocation may do to the session apart from the
dialogue state: slots only grow, blank-or-solid is preserved, language
and mode are untouched. -/
def SessOK (sIn sOut : Session) : Prop :=
  SlotsMono sIn.data sOut.data ∧ (GoodSlots sIn.data → GoodSlots sOut.data) ∧
  sOut.lang = sIn.lang ∧ sOut.mode = sIn.mode

/-- The session language after the detector ran on one utterance. -/
def langAfter (s : Session) (t : String) : Option String :=
  match detectLangPreference t with
  | some p => some p
  | none => s.lang

/-- The slot names, for stating one property over all six slots. -/
inductive SlotName where
  | patientName | phone | doctorName | dept | preferredTime | confirmationId
deriving Repr, DecidableEq

/-- Slot lookup by name. -/
def getSlot : SlotName → SlotData → String
  | .patientName, d => d.patientName
  | .phone, d => d.phone
  | .doctorName, d => d.doctorName
  | .dept, d => d.dept
  | .preferredTime, d => d.preferredTime
  | .confirmationId, d => d.confirmationId

/-- The number of occurrences of a pattern in a string (count of start
positions where the pattern appears). -/
def countSubstr (s pat : String) : Nat :=
  ((List.range (s.data.length + 1)).filter
    (fun i => isPrefixL pat.data (s.data.drop i))).length

/-! ### Basic lemmas about the string helpers -/

theorem toNat_ofNat_small (m : Nat) (h : m < 55296) : (Char.ofNat m).toNat = m := by
  have hv : m.isValidChar := Or.inl h
  simp only [Char.ofNat, dif_pos hv, Char.ofNatAux, Char.toNat]
  rfl

theorem lowChar_spec (c : Char) :
    lowChar c = if 65 ≤ c.toNat ∧ c.toNat ≤ 90 then Char.ofNat (c.toNat + 32) else c := rfl

theorem lowChar_devanagari {c : Char} (h : isDevanagariChar (lowChar c) = true) :
    isDevanagariChar c = true := by
  rw [lowChar_spec] at h
  by_cases hc : 65 ≤ c.toNat ∧ c.toNat ≤ 90
  · rw [if_pos hc] at h
    have h32 : c.toNat + 32 < 55296 := by omega
    simp only [isDevanagariChar, toNat_ofNat_small (c.toNat + 32) h32,
      Bool.and_eq_true, decide_eq_true_eq] at h
    omega
  · rwa [if_neg hc] at h

theorem ws_lowChar {c : Char} (h : jsIsSpace c = true) : lowChar c = c := by
  simp only [jsIsSpace, Bool.or_eq_true, decide_eq_true_eq] at h
  rcases h with ((((h | h) | h) | h) | h) | h <;> subst h <;> decide

theorem dropWhile_idem (p : Char → Bool) (l : List Char) :
    (l.dropWhile p).dropWhile p = l.dropWhile p := by
  induction l with
  | nil => rfl
  | cons c cs ih =>
    by_cases h : p c
    · simp [List.dropWhile_cons, h, ih]
    · simp [List.dropWhile_cons, h]

theorem dropWhile_head_false {p : Char → Bool} :
    ∀ (l : List Char) {c cs}, l.dropWhile p = c :: cs → p c = false := by
  intro l
  induction l with
  | nil => intro c cs h; simp at h
  | cons a as ih =>
    intro c cs h
    rw [List.dropWhile_cons] at h
    by_cases ha : p a
    · rw [if_pos ha] at h; exact ih h
    · rw [if_neg ha] at h
      cases h
      simpa using ha

theorem dropWhile_append_last {p : Char → Bool} {c : Char} (hc : p c = false) (l : List Char) :
    ∃ ys, (l ++ [c]).dropWhile p = ys ++ [c] := by
  induction l with
  | nil => exact ⟨[], by simp [List.dropWhile_cons, hc]⟩
  | cons a as ih =>
    by_cases h : p a
    · simpa [List.dropWhile_cons, h] using ih
    · exact ⟨a :: as, by simp [List.dropWhile_cons, h]⟩

theorem jsTrimL_eq_nil_iff (l : List Char) :
    jsTrimL l = [] ↔ ∀ c ∈ l, jsIsSpace c = true := by
  unfold jsTrimL dropLeadWs
  constructor
  · intro h c hc
    rw [List.reverse_eq_nil_iff, List.dropWhile_eq_nil_iff] at h
    by_cases hcl : c ∈ l.dropWhile jsIsSpace
    · exact h c (List.mem_reverse.mpr hcl)
    · have hsplit := List.takeWhile_append_dropWhile (p := jsIsSpace) (l := l)
      rw [← hsplit] at hc
      rcases List.mem_append.mp hc with h1 | h2
      · exact List.mem_takeWhile_imp h1
      · exact absurd h2 hcl
  · intro h
    have hnil : l.dropWhile jsIsSpace = [] := List.dropWhile_eq_nil_iff.mpr h
    simp [hnil]

theorem jsTrimL_head_clean (l : List Char) :
    (jsTrimL l).dropWhile jsIsSpace = jsTrimL l := by
  have key : ∀ (x : List Char), x.dropWhile jsIsSpace = x →
      ((x.reverse.dropWhile jsIsSpace).reverse).dropWhile jsIsSpace
        = (x.reverse.dropWhile jsIsSpace).reverse := by
    intro x hx
    cases x with
    | nil => simp
    | cons c cs =>
      have hc : jsIsSpace c = false := by
        rw [List.dropWhile_cons] at hx
        by_cases h : jsIsSpace c
        · rw [if_pos h] at hx
          exact absurd h (by simp [dropWhile_head_false cs hx])
        · simpa using h
      rcases dropWhile_append_last hc cs.reverse with ⟨ys, hys⟩
      have hrev : (c :: cs).reverse = cs.reverse ++ [c] := by simp
      rw [hrev, hys, List.reverse_append]
      simp [List.dropWhile_cons, hc]
  unfold jsTrimL dropLeadWs
  exact key (l.dropWhile jsIsSpace) (dropWhile_idem _ _)

theorem jsTrimL_idem (l : List Char) : jsTrimL (jsTrimL l) = jsTrimL l := by
  show ((dropLeadWs (jsTrimL l)).reverse.dropWhile jsIsSpace).reverse = jsTrimL l
  have h1 : dropLeadWs (jsTrimL l) = jsTrimL l := jsTrimL_head_clean l
  rw [h1]
  show (((dropLeadWs l).reverse.dropWhile jsIsSpace).reverse.reverse.dropWhile jsIsSpace).reverse
      = jsTrimL l
  rw [List.reverse_reverse, dropWhile_idem]
  rfl

theorem mem_jsTrimL {c : Char} {l : List Char} (h : c ∈ jsTrimL l) : c ∈ l := by
  unfold jsTrimL dropLeadWs at h
  rw [List.mem_reverse] at h
  have h2 := (List.dropWhile_sublist (l := (l.dropWhile jsIsSpace).reverse)
    (p := jsIsSpace)).subset h
  rw [List.mem_reverse] at h2
  exact (List.dropWhile_sublist (l := l) (p := jsIsSpace)).subset h2

theorem jsTrimL_ne_nil {c : Char} {l : List Char} (hc : c ∈ l) (hw : jsIsSpace c = false) :
    jsTrimL l ≠ [] := by
  intro h
  have := (jsTrimL_eq_nil_iff l).mp h c hc
  rw [hw] at this
  exact Bool.false_ne_true this

theorem jsTrim_idem (s : String) : jsTrim (jsTrim s) = jsTrim s :=
  String.ext (jsTrimL_idem s.data)

theorem jsTrim_eq_empty_iff (s : String) :
    jsTrim s = "" ↔ ∀ c ∈ s.data, jsIsSpace c = true := by
  constructor
  · intro h
    have : jsTrimL s.data = [] := congrArg String.data h
    exact (jsTrimL_eq_nil_iff s.data).mp this
  · intro h
    exact String.ext ((jsTrimL_eq_nil_iff s.data).mpr h)

theorem jsTrim_ne_empty {c : Char} {s : String} (hc : c ∈ s.data) (hw : jsIsSpace c = false) :
    jsTrim s ≠ "" := by
  intro h
  exact jsTrimL_ne_nil hc hw (congrArg String.data h)

theorem mem_collapseGo {c : Char} :
    ∀ {l : List Char} {b : Bool}, c ∈ collapseGo l b → c = ' ' ∨ c ∈ l := by
  intro l
  induction l with
  | nil => intro b h; simp [collapseGo] at h
  | cons a as ih =>
    intro b h
    simp only [collapseGo] at h
    by_cases ha : jsIsSpace a
    · rw [if_pos ha] at h
      by_cases hb : b
      · rw [if_pos hb] at h
        rcases ih h with h1 | h1
        · exact Or.inl h1
        · exact Or.inr (List.mem_cons_of_mem a h1)
      · rw [if_neg hb] at h
        rcases List.mem_cons.mp h with h1 | h1
        · exact Or.inl h1
        · rcases ih h1 with h2 | h2
          · exact Or.inl h2
          · exact Or.inr (List.mem_cons_of_mem a h2)
    · rw [if_neg ha] at h
      rcases List.mem_cons.mp h with h1 | h1
      · exact Or.inr (h1 ▸ List.mem_cons_self a as)
      · rcases ih h1 with h2 | h2
        · exact Or.inl h2
        · exact Or.inr (List.mem_cons_of_mem a h2)

theorem mem_normalize {c : Char} {s : String} (h : c ∈ (normalize s).data) :
    c = ' ' ∨ ∃ c', c' ∈ s.data ∧ lowChar c' = c := by
  have h1 : c ∈ collapseWs (s.data.map lowChar) := mem_jsTrimL h
  rcases mem_collapseGo h1 with h2 | h2
  · exact Or.inl h2
  · rcases List.mem_map.mp h2 with ⟨c', hc', rfl⟩
    exact Or.inr ⟨c', hc', rfl⟩

theorem isPrefixL_mem : ∀ {p l : List Char}, isPrefixL p l = true → ∀ {c}, c ∈ p → c ∈ l := by
  intro p
  induction p with
  | nil => intro l _ c hc; simp at hc
  | cons a as ih =>
    intro l h c hc
    cases l with
    | nil => simp [isPrefixL] at h
    | cons b bs =>
      simp only [isPrefixL, Bool.and_eq_true, decide_eq_true_eq] at h
      rcases List.mem_cons.mp hc with h1 | h1
      · exact h1 ▸ h.1 ▸ List.mem_cons_self b bs
      · exact List.mem_cons_of_mem b (ih h.2 h1)

theorem isInfixL_mem : ∀ {l p : List Char}, isInfixL p l = true → ∀ {c}, c ∈ p → c ∈ l := by
  intro l
  induction l with
  | nil => intro p h c hc; exact isPrefixL_mem h hc
  | cons b bs ih =>
    intro p h c hc
    simp only [isInfixL, Bool.or_eq_true] at h
    rcases h with h | h
    · exact isPrefixL_mem h hc
    · exact List.mem_cons_of_mem b (ih h hc)

theorem includes_devanagari {s pat : String} (h : jsIncludes (normalize s) pat = true)
    {c : Char} (hc : c ∈ pat.data) (hd : isDevanagariChar c = true) :
    containsDevanagari s = true := by
  have hmem : c ∈ (normalize s).data := isInfixL_mem h hc
  rcases mem_normalize hmem with rfl | ⟨c', hc', rfl⟩
  · exact absurd hd (by decide)
  · exact List.any_eq_true.mpr ⟨c', hc', lowChar_devanagari hd⟩

/-! ### Claim C6 — the language preference detector -/

/-- C6: `detectLangPreference` returns Hindi exactly on utterances with
a Devanagari code point or the word hindi; failing that it returns
English on utterances with the word english (or its Devanagari
spelling, which however always falls under the Devanagari case); and
otherwise it reports no change (`none`). -/
theorem detectLangPreference_cases (u : String) :
    ((containsDevanagari u = true ∨ jsIncludes (normalize u) "hindi" = true) →
        detectLangPreference u = some "hi-IN") ∧
    (¬(containsDevanagari u = true ∨ jsIncludes (normalize u) "hindi" = true) →
      (jsIncludes (normalize u) "english" = true ∨ jsIncludes (normalize u) "अंग्रेजी" = true) →
        detectLangPreference u = some "en-IN") ∧
    (¬(containsDevanagari u = true ∨ jsIncludes (normalize u) "hindi" = true) →
      ¬(jsIncludes (normalize u) "english" = true ∨ jsIncludes (normalize u) "अंग्रेजी" = true) →
        detectLangPreference u = none) := by
  refine ⟨?_, ?_, ?_⟩
  · intro h
    rcases h with h | h
    · simp [detectLangPreference, h]
    · by_cases hdev : containsDevanagari u = true
      · simp [detectLangPreference, hdev]
      · simp [detectLangPreference, hdev, h]
  · intro hneg heng
    have hdev : containsDevanagari u = false := by
      by_cases h : containsDevanagari u = true
      · exact absurd (Or.inl h) hneg
      · simpa using h
    have hhin : jsIncludes (normalize u) "hindi" = false := by
      by_cases h : jsIncludes (normalize u) "hindi" = true
      · exact absurd (Or.inr h) hneg
      · simpa using h
    have hhin2 : jsIncludes (normalize u) "हिंदी" = false := by
      by_cases h : jsIncludes (normalize u) "हिंदी" = true
      · rw [includes_devanagari h (c := 'ह') (by decide) (by decide)] at hdev
        exact absurd hdev (by simp)
      · simpa using h
    have hhin3 : jsIncludes (normalize u) "हिन्दी" = false := by
      by_cases h : jsIncludes (normalize u) "हिन्दी" = true
      · rw [includes_devanagari h (c := 'ह') (by decide) (by decide)] at hdev
        exact absurd hdev (by simp)
      · simpa using h
    have heng1 : jsIncludes (normalize u) "english" = true := by
      rcases heng with h | h
      · exact h
      · rw [includes_devanagari h (c := 'अ') (by decide) (by decide)] at hdev
        exact absurd hdev (by simp)
    simp [detectLangPreference, hdev, hhin, hhin2, hhin3, heng1]
  · intro hneg hneg2
    have hdev : containsDevanagari u = false := by
      by_cases h : containsDevanagari u = true
      · exact absurd (Or.inl h) hneg
      · simpa using h
    have hhin : jsIncludes (normalize u) "hindi" = false := by
      by_cases h : jsIncludes (normalize u) "hindi" = true
      · exact absurd (Or.inr h) hneg
      · simpa using h
    have hhin2 : jsIncludes (normalize u) "हिंदी" = false := by
      by_cases h : jsIncludes (normalize u) "हिंदी" = true
      · rw [includes_devanagari h (c := 'ह') (by decide) (by decide)] at hdev
        exact absurd hdev (by simp)
      · simpa using h
    have hhin3 : jsIncludes (normalize u) "हिन्दी" = false := by
      by_cases h : jsIncludes (normalize u) "हिन्दी" = true
      · rw [includes_devanagari h (c := 'ह') (by decide) (by decide)] at hdev
        exact absurd hdev (by simp)
      · simpa using h
    have heng1 : jsIncludes (normalize u) "english" = false := by
      by_cases h : jsIncludes (normalize u) "english" = true
      · exact absurd (Or.inl h) hneg2
      · simpa using h
    have heng2 : jsIncludes (normalize u) "अंग्रेजी" = false := by
      by_cases h : jsIncludes (normalize u) "अंग्रेजी" = true
      · exact absurd (Or.inr h) hneg2
      · simpa using h
    simp [detectLangPreference, hdev, hhin, hhin2, hhin3, heng1, heng2]

/-- Witness for C6 at three concrete utterances. -/
theorem detectLangPreference_cases_witness :
    detectLangPreference "hindi me baat karo" = some "hi-IN" ∧
    detectLangPreference "switch to english" = some "en-IN" ∧
    detectLangPreference "hello doctor" = none := by
  refine ⟨?_, ?_, ?_⟩
  · exact (detectLangPreference_cases "hindi me baat karo").1 (Or.inr (by decide))
  · exact (detectLangPreference_cases "switch to english").2.1 (by decide) (Or.inl (by decide))
  · exact (detectLangPreference_cases "hello doctor").2.2 (by decide) (by decide)

/-! ### Claim C10 — the frame property of `setSession` -/

/-- C10: a session update leaves every top-level field absent from the
patch unchanged and every slot key absent from the patch's data map
bound to its old value; it never removes a slot key. -/
theorem setSession_frame (s : Session) (p : SessionPatch) :
    (p.mode = none → (setSession s p).mode = s.mode) ∧
    (p.state = none → (setSession s p).state = s.state) ∧
    (p.lang = none → (setSession s p).lang = s.lang) ∧
    (p.data.patientName = none → (setSession s p).data.patientName = s.data.patientName) ∧
    (p.data.phone = none → (setSession s p).data.phone = s.data.phone) ∧
    (p.data.doctorName = none → (setSession s p).data.doctorName = s.data.doctorName) ∧
    (p.data.dept = none → (setSession s p).data.dept = s.data.dept) ∧
    (p.data.preferredTime = none → (setSession s p).data.preferredTime = s.data.preferredTime) ∧
    (p.data.confirmationId = none → (setSession s p).data.confirmationId = s.data.confirmationId) := by
  refine ⟨?_, ?_, ?_, ?_, ?_, ?_, ?_, ?_, ?_⟩ <;>
    intro h <;> simp [setSession, mergeData, h]

/-- Witness for C10: a state-only patch touches neither the other
top-level fields nor any slot. -/
theorem setSession_frame_witness :
    (setSession ⟨"hospital", "COLLECT_PHONE", some "hi-IN",
        { patientName := "Rohit", phone := "9876543210" }⟩
      { state := some "COLLECT_TIME" }).data.phone = "9876543210" :=
  (setSession_frame ⟨"hospital", "COLLECT_PHONE", some "hi-IN",
      { patientName := "Rohit", phone := "9876543210" }⟩
    { state := some "COLLECT_TIME" }).2.2.2.2.1 rfl

/-! ### Claim C8 — the polish contract -/

/-- C8: `hospitalPolish` returns its input unchanged whenever polish is
disabled, the API key is missing, the message contains one of the
collection-critical skip phrases, or the external call errors; and a
message can only be rewritten when polish is enabled, a key is present
and the message is outside the skip list. -/
theorem hospitalPolish_contract (cfg : TurnCfg) (s : Session) (raw : String) :
    ((cfg.enablePolish = false ∨ cfg.hasApiKey = false ∨ polishSkip raw = true ∨
        cfg.polishOracle (isHi cfg s) raw = none) → hospitalPolish cfg s raw = raw) ∧
    (hospitalPolish cfg s raw ≠ raw →
      cfg.enablePolish = true ∧ cfg.hasApiKey = true ∧ polishSkip raw = false) := by
  constructor
  · intro h
    rcases h with h | h | h | h <;>
      by_cases h1 : cfg.enablePolish <;> by_cases h2 : cfg.hasApiKey <;>
        by_cases h3 : polishSkip raw <;> simp_all [hospitalPolish]
  · intro h
    by_cases h1 : cfg.enablePolish <;> by_cases h2 : cfg.hasApiKey <;>
      by_cases h3 : polishSkip raw <;> refine ⟨?_, ?_, ?_⟩ <;> simp_all [hospitalPolish]

/-- Witness for C8: with polish disabled (the shipped default) the
message is returned verbatim even with a rewriting oracle. -/
theorem hospitalPolish_contract_witness :
    hospitalPolish { enablePolish := false, polishOracle := fun _ _ => some "rewritten" }
      ⟨"hospital", "NEW", none, {}⟩ "Hello there" = "Hello there" :=
  (hospitalPolish_contract { enablePolish := false, polishOracle := fun _ _ => some "rewritten" }
    ⟨"hospital", "NEW", none, {}⟩ "Hello there").1 (Or.inl rfl)

/-! ### Claim C4 — the phone extractor -/

theorem find10_of_run : ∀ (l₁ m r : List Char), m.length = 10 → (∀ c ∈ m, c.isDigit = true) →
    (find10 (l₁ ++ m ++ r)).isSome = true := by
  intro l₁
  induction l₁ with
  | nil =>
    intro m r hlen hdig
    cases m with
    | nil => simp at hlen
    | cons b bs =>
      have htake : List.take 10 (b :: (bs ++ r)) = b :: bs := by
        have hbb : b :: (bs ++ r) = (b :: bs) ++ r := by simp
        rw [hbb, ← hlen]
        exact List.take_left _ r
      simp only [List.nil_append, List.cons_append, find10, List.append_eq]
      rw [if_pos]
      · simp
      · simp only [htake, hlen, List.all_eq_true, Bool.and_eq_true, decide_eq_true_eq]
        exact ⟨trivial, hdig⟩
  | cons a as ih =>
    intro m r hlen hdig
    simp only [List.cons_append, find10, List.append_eq]
    by_cases hc : ((((a :: (as ++ m ++ r)).take 10).length = 10 : Bool)
        && ((a :: (as ++ m ++ r)).take 10).all Char.isDigit) = true
    · rw [if_pos hc]; simp
    · rw [if_neg hc]
      exact ih m r hlen hdig

theorem find10_run_of_isSome : ∀ (l : List Char), (find10 l).isSome = true →
    ∃ l₁ m r : List Char, l = l₁ ++ m ++ r ∧ m.length = 10 ∧ ∀ c ∈ m, c.isDigit = true := by
  intro l
  induction l with
  | nil => intro h; simp [find10] at h
  | cons c cs ih =>
    intro h
    simp only [find10] at h
    by_cases hc : ((((c :: cs).take 10).length = 10 : Bool)
        && ((c :: cs).take 10).all Char.isDigit) = true
    · refine ⟨[], (c :: cs).take 10, (c :: cs).drop 10, by simp, ?_, ?_⟩
      · have := ((Bool.and_eq_true _ _).mp hc).1
        simpa using this
      · intro x hx
        exact List.all_eq_true.mp ((Bool.and_eq_true _ _).mp hc).2 x hx
    · rw [if_neg hc] at h
      rcases ih h with ⟨l₁, m, r, heq, hlen, hdig⟩
      exact ⟨c :: l₁, m, r, by simp [heq], hlen, hdig⟩

theorem hasTenDigitRun_iff_find10 (s : String) :
    hasTenDigitRun s ↔ (find10 s.data).isSome = true := by
  constructor
  · rintro ⟨l₁, m, r, heq, hlen, hdig⟩
    rw [heq]
    exact find10_of_run l₁ m r hlen hdig
  · intro h
    exact find10_run_of_isSome s.data h

theorem matchPhoneCore_chars {l m : List Char} (h : matchPhoneCore l = some m) :
    ∀ c ∈ m, c.isDigit = true ∨ phoneClassChar c = true := by
  cases l with
  | nil => simp [matchPhoneCore] at h
  | cons d rest =>
    simp only [matchPhoneCore] at h
    by_cases hd : d.isDigit
    · rw [if_pos hd] at h
      rcases hk : lastFinalIdx (rest.takeWhile phoneClassChar) with _ | k
      · rw [hk] at h; simp at h
      · rw [hk] at h
        cases h
        intro c hc
        rcases List.mem_cons.mp hc with rfl | hc
        · exact Or.inl hd
        · have : c ∈ rest.takeWhile phoneClassChar :=
            (List.take_subset _ _) hc
          exact Or.inr (List.mem_takeWhile_imp this)
    · rw [if_neg hd] at h; simp at h

theorem matchPhoneAt_chars {l m : List Char} (h : matchPhoneAt l = some m) :
    ∀ c ∈ m, c = '+' ∨ c.isDigit = true ∨ phoneClassChar c = true := by
  unfold matchPhoneAt at h
  split at h
  next rest =>
    rcases hmc : matchPhoneCore rest with _ | m'
    · rw [hmc] at h; simp at h
    · rw [hmc] at h
      have h' : '+' :: m' = m := by simpa using h
      subst h'
      intro c hc
      rcases List.mem_cons.mp hc with rfl | hc
      · exact Or.inl rfl
      · exact Or.inr (matchPhoneCore_chars hmc c hc)
  next =>
    intro c hc
    exact Or.inr (matchPhoneCore_chars h c hc)

theorem scanPhone_chars : ∀ {l m : List Char}, scanPhone l = some m →
    ∀ c ∈ m, c = '+' ∨ c.isDigit = true ∨ phoneClassChar c = true := by
  intro l
  induction l with
  | nil => intro m h; simp [scanPhone] at h
  | cons a rest ih =>
    intro m h
    simp only [scanPhone] at h
    rcases hv : matchPhoneAt (a :: rest) with _ | v
    · rw [hv] at h
      simp only [Option.none_orElse] at h
      exact ih h
    · rw [hv] at h
      simp only [Option.some_orElse] at h
      cases h
      exact matchPhoneAt_chars hv

theorem find10_chars : ∀ {l m : List Char}, find10 l = some m → ∀ c ∈ m, c.isDigit = true := by
  intro l
  induction l with
  | nil => intro m h; simp [find10] at h
  | cons a rest ih =>
    intro m h
    simp only [find10] at h
    by_cases hc : ((((a :: rest).take 10).length = 10 : Bool)
        && ((a :: rest).take 10).all Char.isDigit) = true
    · rw [if_pos hc] at h
      cases h
      exact fun c hc2 => List.all_eq_true.mp ((Bool.and_eq_true _ _).mp hc).2 c hc2
    · rw [if_neg hc] at h
      exact ih h

/-- C4 (amended): the extractor fires on every text containing a run of
ten digits (through the `\d{10}` fallback when the loose pattern
misses), and any returned value consists of digits with possibly a
leading `+` (the separator strip removes whitespace and hyphens but
not the plus sign); as the counterexample shows, it can additionally
fire on digit groups joined by separators whose total digit count is
below ten. -/
theorem extractPhone_amended (text : String) (h : hasTenDigitRun text) :
    (extractPhone text).isSome = true ∧
    (∀ r, extractPhone text = some r → ∀ c ∈ r.data, c.isDigit = true ∨ c = '+') := by
  constructor
  · have hf : (find10 text.data).isSome = true := (hasTenDigitRun_iff_find10 text).mp h
    unfold extractPhone
    rcases hs : scanPhone text.data with _ | m
    · rcases hf2 : find10 text.data with _ | m2
      · rw [hf2] at hf; simp at hf
      · simp [hs, hf2]
    · simp [hs]
  · intro r hr c hc
    unfold extractPhone at hr
    rcases hs : scanPhone text.data with _ | m
    · rw [hs] at hr
      rcases hf2 : find10 text.data with _ | m2
      · rw [hf2] at hr; simp at hr
      · rw [hf2] at hr
        simp only [Option.none_orElse] at hr
        cases hr
        have hmem : c ∈ m2.filter (fun c => !(jsIsSpace c || c = '-')) := hc
        have h1 := List.mem_filter.mp hmem
        exact Or.inl (find10_chars hf2 c h1.1)
    · rw [hs] at hr
      simp only [Option.some_orElse] at hr
      cases hr
      have hmem : c ∈ m.filter (fun c => !(jsIsSpace c || c = '-')) := hc
      have h1 := List.mem_filter.mp hmem
      have h2 := h1.2
      have hws : jsIsSpace c = false := by
        by_cases hq : jsIsSpace c
        · rw [hq] at h2; simp at h2
        · simpa using hq
      have hhy : c ≠ '-' := by
        intro hq
        rw [hq] at h2; simp at h2
      rcases scanPhone_chars hs c h1.1 with h3 | h3 | h3
      · exact Or.inr h3
      · exact Or.inl h3
      · simp only [phoneClassChar, Bool.or_eq_true, decide_eq_true_eq] at h3
        rcases h3 with (h3 | h3) | h3
        · exact Or.inl h3
        · exact absurd h3 (by simp [hws])
        · exact absurd h3 hhy

/-- Witness for C4 at a text with a genuine ten-digit run. -/
theorem extractPhone_amended_witness :
    (extractPhone "call 9876543210 now").isSome = true :=
  (extractPhone_amended "call 9876543210 now"
    ⟨"call ".data, "9876543210".data, " now".data, by decide, by decide, by decide⟩).1

/-- Counterexample for C4: the loose pattern accepts a separator span
holding only eight digits, so texts with no ten-digit run can still
produce a match. -/
theorem extractPhone_counterexample :
    extractPhone "12-34-56-78" = some "12345678" ∧ ¬ hasTenDigitRun "12-34-56-78" := by
  constructor
  · decide
  · rw [hasTenDigitRun_iff_find10]
    decide

/-! ### Claim C9 — the Hindi slot-descriptor conversion -/

/-- C9 (amended): the day tokens are substituted by the fixed Hindi
table; a PM-tagged hour is bucketed as 12 → दोपहर (noon-afternoon),
1–4 → दोपहर (afternoon), 5–7 → शाम (evening), the rest → रात (night);
an AM-tagged hour is always rendered as सुबह (morning) — hours 00–04
are not mapped to night. -/
theorem slotToHindi_amended :
    (∀ h : Nat, 1 ≤ h → h ≤ 12 →
      slotToHindi (toString h ++ " pm") = pmBucketWord h ++ " " ++ toString h ++ " बजे" ∧
      slotToHindi (toString h ++ " am") = "सुबह " ++ toString h ++ " बजे") ∧
    slotToHindi "Tomorrow 5 PM" = "कल शाम 5 बजे" ∧
    slotToHindi "Day after tomorrow 11 AM" = "परसों सुबह 11 बजे" ∧
    slotToHindi "Thursday 6 PM" = "गुरुवार शाम 6 बजे" := by
  refine ⟨?_, by decide, by decide, by decide⟩
  intro h h1 h2
  interval_cases h <;> exact ⟨by decide, by decide⟩

/-- Witness for C9 at the 2 PM and 2 AM hours. -/
theorem slotToHindi_amended_witness :
    slotToHindi "2 pm" = "दोपहर 2 बजे" ∧ slotToHindi "2 am" = "सुबह 2 बजे" :=
  ⟨(slotToHindi_amended.1 2 (by decide) (by decide)).1,
   (slotToHindi_amended.1 2 (by decide) (by decide)).2⟩

/-- Counterexample for C9: hour 2 tagged AM is rendered as morning
(सुबह), not night (रात), refuting the claimed 00–04 → night bucket. -/
theorem slotToHindi_counterexample :
    slotToHindi "2 AM" = "सुबह 2 बजे" ∧ jsIncludes (slotToHindi "2 AM") "रात" = false := by
  constructor <;> decide

/-! ### Non-blank values produced by the extractors -/

theorem ite_some_none_eq {α : Type} {c : Prop} [Decidable c] {x g : α}
    (h : (if c then some x else none) = some g) : g = x := by
  by_cases hc : c
  · rw [if_pos hc] at h
    exact (Option.some.inj h).symm
  · rw [if_neg hc] at h
    simp at h

theorem jsOrS_empty_right (x : String) : jsOrS x "" = x := by
  unfold jsOrS
  split <;> simp_all

theorem jsOrS_self (x : String) : jsOrS x x = x := by
  unfold jsOrS
  split <;> simp_all

theorem ws_not_digit {c : Char} (h : jsIsSpace c = true) : c.isDigit = false := by
  simp only [jsIsSpace, Bool.or_eq_true, decide_eq_true_eq] at h
  rcases h with ((((h | h) | h) | h) | h) | h <;> subst h <;> decide

theorem digit_not_ws {c : Char} (h : c.isDigit = true) : jsIsSpace c = false := by
  by_cases hw : jsIsSpace c
  · rw [ws_not_digit hw] at h
    exact absurd h (by simp)
  · simpa using hw

theorem ws_not_alpha {c : Char} (h : jsIsSpace c = true) : c.isAlpha = false := by
  simp only [jsIsSpace, Bool.or_eq_true, decide_eq_true_eq] at h
  rcases h with ((((h | h) | h) | h) | h) | h <;> subst h <;> decide

theorem alpha_not_ws {c : Char} (h : c.isAlpha = true) : jsIsSpace c = false := by
  by_cases hw : jsIsSpace c
  · rw [ws_not_alpha hw] at h
    exact absurd h (by simp)
  · simpa using hw

theorem goodVal_jsTrim (y : String) : GoodVal (jsTrim y) := by
  by_cases h : jsTrim y = ""
  · exact Or.inl h
  · exact Or.inr (by rw [jsTrim_idem]; exact h)

theorem dropWhile_eq_self_of_none {p : Char → Bool} {l : List Char}
    (h : ∀ c ∈ l, p c = false) : l.dropWhile p = l := by
  cases l with
  | nil => rfl
  | cons c cs =>
    rw [List.dropWhile_cons, if_neg (by simp [h c (List.mem_cons_self c cs)])]

theorem jsTrimL_eq_self_of_no_ws {l : List Char}
    (h : ∀ c ∈ l, jsIsSpace c = false) : jsTrimL l = l := by
  unfold jsTrimL dropLeadWs
  rw [dropWhile_eq_self_of_none h,
    dropWhile_eq_self_of_none (fun c hc => h c (List.mem_reverse.mp hc)),
    List.reverse_reverse]

theorem matchPhoneCore_digit {l m : List Char} (h : matchPhoneCore l = some m) :
    ∃ c ∈ m, c.isDigit = true := by
  cases l with
  | nil => simp [matchPhoneCore] at h
  | cons d rest =>
    simp only [matchPhoneCore] at h
    by_cases hd : d.isDigit
    · rw [if_pos hd] at h
      rcases hk : lastFinalIdx (rest.takeWhile phoneClassChar) with _ | k <;> rw [hk] at h
      · simp at h
      · cases h
        exact ⟨d, List.mem_cons_self _ _, hd⟩
    · rw [if_neg hd] at h
      simp at h

theorem matchPhoneAt_digit {l m : List Char} (h : matchPhoneAt l = some m) :
    ∃ c ∈ m, c.isDigit = true := by
  unfold matchPhoneAt at h
  split at h
  next rest =>
    rcases hmc : matchPhoneCore rest with _ | m' <;> rw [hmc] at h
    · simp at h
    · have h' : '+' :: m' = m := by simpa using h
      subst h'
      rcases matchPhoneCore_digit hmc with ⟨c, hc, hcd⟩
      exact ⟨c, List.mem_cons_of_mem _ hc, hcd⟩
  next => exact matchPhoneCore_digit h

theorem scanPhone_digit : ∀ {l m : List Char}, scanPhone l = some m →
    ∃ c ∈ m, c.isDigit = true := by
  intro l
  induction l with
  | nil => intro m h; simp [scanPhone] at h
  | cons a rest ih =>
    intro m h
    simp only [scanPhone] at h
    rcases hv : matchPhoneAt (a :: rest) with _ | v <;> rw [hv] at h
    · simp only [Option.none_orElse] at h
      exact ih h
    · simp only [Option.some_orElse] at h
      cases h
      exact matchPhoneAt_digit hv

theorem find10_digit : ∀ {l m : List Char}, find10 l = some m → ∃ c ∈ m, c.isDigit = true := by
  intro l
  induction l with
  | nil => intro m h; simp [find10] at h
  | cons a rest ih =>
    intro m h
    simp only [find10] at h
    by_cases hc : ((((a :: rest).take 10).length = 10 : Bool)
        && ((a :: rest).take 10).all Char.isDigit) = true
    · rw [if_pos hc] at h
      cases h
      have hall := ((Bool.and_eq_true _ _).mp hc).2
      refine ⟨a, ?_, List.all_eq_true.mp hall a ?_⟩ <;> simp [List.take_cons]
    · rw [if_neg hc] at h
      exact ih h

theorem extractPhone_good {t v : String} (h : extractPhone t = some v) :
    jsTrim v = v ∧ v ≠ "" := by
  unfold extractPhone at h
  rcases hm : scanPhone t.data <|> find10 t.data with _ | m <;> rw [hm] at h
  · simp at h
  · have hv : v = ⟨m.filter (fun c => !(jsIsSpace c || c = '-'))⟩ := by simpa using h.symm
    have hnws : ∀ c ∈ v.data, jsIsSpace c = false := by
      intro c hc
      rw [hv] at hc
      have h2 := (List.mem_filter.mp hc).2
      by_cases hq : jsIsSpace c
      · rw [hq] at h2
        simp at h2
      · simpa using hq
    have hdig : ∃ c ∈ m, c.isDigit = true := by
      rcases hs : scanPhone t.data with _ | m1 <;> rw [hs] at hm
      · simp only [Option.none_orElse] at hm
        exact find10_digit hm
      · simp only [Option.some_orElse] at hm
        cases hm
        exact scanPhone_digit hs
    rcases hdig with ⟨c, hc, hcd⟩
    have hnd : c ≠ '-' := by
      intro hh
      rw [hh] at hcd
      exact absurd hcd (by decide)
    have hcf : c ∈ v.data := by
      rw [hv]
      exact List.mem_filter.mpr ⟨hc, by simp [digit_not_ws hcd, hnd]⟩
    constructor
    · exact String.ext (jsTrimL_eq_self_of_no_ws hnws)
    · intro hq
      rw [hq] at hcf
      simp at hcf

theorem tryDesc_some {α : Type} {f : Nat → Option α} :
    ∀ {n : Nat} {x : α}, tryDesc f n = some x → ∃ k, k ≤ n ∧ f k = some x := by
  intro n
  induction n with
  | zero => intro x h; exact ⟨0, Nat.le_refl 0, h⟩
  | succ n ih =>
    intro x h
    simp only [tryDesc] at h
    rcases hv : f (n + 1) with _ | v <;> rw [hv] at h
    · simp only [Option.none_orElse] at h
      rcases ih h with ⟨k, hk, hfk⟩
      exact ⟨k, Nat.le_succ_of_le hk, hfk⟩
    · simp only [Option.some_orElse] at h
      cases h
      exact ⟨n + 1, Nat.le_refl _, hv⟩

theorem matchNameGroup_head {l g : List Char} (h : matchNameGroup l = some g) :
    ∃ a t, g = a :: t ∧ a.isAlpha = true := by
  cases l with
  | nil => simp [matchNameGroup] at h
  | cons a rest =>
    simp only [matchNameGroup] at h
    by_cases ha : a.isAlpha
    · rw [if_pos ha] at h
      rcases tryDesc_some h with ⟨k, _, hfk⟩
      by_cases hk0 : k = 0
      · rw [hk0] at hfk
        simp at hfk
      · rw [if_neg hk0] at hfk
        exact ⟨a, _, ite_some_none_eq hfk, ha⟩
    · rw [if_neg ha] at h
      simp at h

theorem nameAfterWs3_head {l g : List Char} (h : nameAfterWs3 l = some g) :
    ∃ a t, g = a :: t ∧ a.isAlpha = true := by
  unfold nameAfterWs3 at h
  rcases tryDesc_some h with ⟨k, _, hfk⟩
  exact matchNameGroup_head hfk

theorem nameAfterPunct_head {l g : List Char} (h : nameAfterPunct l = some g) :
    ∃ a t, g = a :: t ∧ a.isAlpha = true := by
  cases l with
  | nil =>
    simp only [nameAfterPunct, Option.none_orElse] at h
    exact nameAfterWs3_head h
  | cons c cs =>
    simp only [nameAfterPunct] at h
    by_cases hc : (decide (c = ':') || decide (c = '-')) = true
    · rw [if_pos hc] at h
      rcases hw : nameAfterWs3 cs with _ | v <;> rw [hw] at h
      · simp only [Option.none_orElse] at h
        exact nameAfterWs3_head h
      · simp only [Option.some_orElse] at h
        cases h
        exact nameAfterWs3_head hw
    · rw [if_neg hc] at h
      simp only [Option.none_orElse] at h
      exact nameAfterWs3_head h

theorem nameAfterWs2_head {l g : List Char} (h : nameAfterWs2 l = some g) :
    ∃ a t, g = a :: t ∧ a.isAlpha = true := by
  unfold nameAfterWs2 at h
  rcases tryDesc_some h with ⟨k, _, hfk⟩
  exact nameAfterPunct_head hfk

theorem nameAfterIs_head {l g : List Char} (h : nameAfterIs l = some g) :
    ∃ a t, g = a :: t ∧ a.isAlpha = true := by
  unfold nameAfterIs at h
  rcases hv : (match ciSplit ['i', 's'] l with
    | some pr => nameAfterWs2 pr.2
    | none => none) with _ | v <;> rw [hv] at h
  · simp only [Option.none_orElse] at h
    exact nameAfterWs2_head h
  · simp only [Option.some_orElse] at h
    cases h
    rcases hsp : ciSplit ['i', 's'] l with _ | pr <;> rw [hsp] at hv
    · simp at hv
    · exact nameAfterWs2_head hv

theorem matchNameTail_head {l g : List Char} (h : matchNameTail l = some g) :
    ∃ a t, g = a :: t ∧ a.isAlpha = true := by
  unfold matchNameTail at h
  rcases tryDesc_some h with ⟨k, _, hfk⟩
  exact nameAfterIs_head hfk

theorem scanName1_head : ∀ {l : List Char} {prev : Option Char} {g : List Char},
    scanName1 prev l = some g → ∃ a t, g = a :: t ∧ a.isAlpha = true := by
  intro l
  induction l with
  | nil => intro prev g h; simp [scanName1] at h
  | cons c cs ih =>
    intro prev g h
    simp only [scanName1] at h
    rcases hv : (if jsBoundary prev (some c) then
        match ciSplit ['n', 'a', 'm', 'e'] (c :: cs) with
        | some pr => matchNameTail pr.2
        | none => none
      else none) with _ | v <;> rw [hv] at h
    · simp only [Option.none_orElse] at h
      exact ih h
    · simp only [Option.some_orElse] at h
      cases h
      by_cases hb : jsBoundary prev (some c) = true
      · rw [if_pos hb] at hv
        rcases hsp : ciSplit ['n', 'a', 'm', 'e'] (c :: cs) with _ | pr <;> rw [hsp] at hv
        · simp at hv
        · exact matchNameTail_head hv
      · rw [if_neg hb] at hv
        simp at hv

theorem matchPatientTail_head {l g : List Char} (h : matchPatientTail l = some g) :
    ∃ a t, g = a :: t ∧ a.isAlpha = true := by
  unfold matchPatientTail at h
  rcases tryDesc_some h with ⟨k, _, hfk⟩
  rcases hsp : ciSplit ['n', 'a', 'm', 'e'] (l.drop k) with _ | pr <;> rw [hsp] at hfk
  · simp at hfk
  · exact matchNameTail_head hfk

theorem scanName2_head : ∀ {l : List Char} {prev : Option Char} {g : List Char},
    scanName2 prev l = some g → ∃ a t, g = a :: t ∧ a.isAlpha = true := by
  intro l
  induction l with
  | nil => intro prev g h; simp [scanName2] at h
  | cons c cs ih =>
    intro prev g h
    simp only [scanName2] at h
    rcases hv : (if jsBoundary prev (some c) then
        match ciSplit ['p', 'a', 't', 'i', 'e', 'n', 't'] (c :: cs) with
        | some pr => matchPatientTail pr.2
        | none => none
      else none) with _ | v <;> rw [hv] at h
    · simp only [Option.none_orElse] at h
      exact ih h
    · simp only [Option.some_orElse] at h
      cases h
      by_cases hb : jsBoundary prev (some c) = true
      · rw [if_pos hb] at hv
        rcases hsp : ciSplit ['p', 'a', 't', 'i', 'e', 'n', 't'] (c :: cs) with _ | pr <;>
          rw [hsp] at hv
        · simp at hv
        · exact matchPatientTail_head hv
      · rw [if_neg hb] at hv
        simp at hv

theorem extractName_good {t v : String} (h : extractName t = some v) :
    jsTrim v = v ∧ v ≠ "" := by
  simp only [extractName] at h
  have main : ∀ g : List Char, (∃ a t2, g = a :: t2 ∧ a.isAlpha = true) →
      v = (⟨jsTrimL g⟩ : String) → jsTrim v = v ∧ v ≠ "" := by
    rintro g ⟨a, t2, rfl, ha⟩ rfl
    constructor
    · exact String.ext (jsTrimL_idem _)
    · intro hq
      have : jsTrimL (a :: t2) = [] := congrArg String.data hq
      exact jsTrimL_ne_nil (List.mem_cons_self a t2) (alpha_not_ws ha) this
  rcases h1 : scanName1 none (jsTrim t).data with _ | g <;> rw [h1] at h
  · rcases h2 : scanName2 none (jsTrim t).data with _ | g <;> rw [h2] at h
    · simp at h
    · have hv : v = ⟨jsTrimL g⟩ := by simpa using h.symm
      exact main g (scanName2_head h2) hv
  · have hv : v = ⟨jsTrimL g⟩ := by simpa using h.symm
    exact main g (scanName1_head h1) hv

theorem ciSplit_head {p : Char} {ps l : List Char} {seg rest : List Char}
    (h : ciSplit (p :: ps) l = some (seg, rest)) :
    ∃ c cs2, seg = c :: cs2 ∧ lowChar c = lowChar p := by
  cases l with
  | nil => simp [ciSplit] at h
  | cons c cs =>
    simp only [ciSplit] at h
    by_cases heq : lowChar c = lowChar p
    · rw [if_pos heq] at h
      rcases hsp : ciSplit ps cs with _ | pr <;> rw [hsp] at h
      · simp at h
      · have hpair : (c :: pr.1, pr.2) = (seg, rest) := by simpa using h
        exact ⟨c, pr.1, (Prod.mk.inj hpair).1.symm, heq⟩
    · rw [if_neg heq] at h
      simp at h

theorem matchAltB_head : ∀ {alts : List (List Char)} {l : List Char} {pr : List Char × List Char},
    (∀ p ∈ alts, p ≠ []) → matchAltB alts l = some pr →
    ∃ ph pt, (ph :: pt) ∈ alts ∧ ∃ c cs2, pr.1 = c :: cs2 ∧ lowChar c = lowChar ph := by
  intro alts
  induction alts with
  | nil => intro l pr _ h; simp [matchAltB] at h
  | cons a rest ih =>
    intro l pr halts h
    simp only [matchAltB] at h
    rcases hv : (match ciSplit a l with
      | some pr2 => if jsBoundary pr2.1.getLast? pr2.2.head? then some pr2 else none
      | none => none) with _ | v <;> rw [hv] at h
    · simp only [Option.none_orElse] at h
      rcases ih (fun p hp => halts p (List.mem_cons_of_mem a hp)) h with ⟨ph, pt, hmem, rest2⟩
      exact ⟨ph, pt, List.mem_cons_of_mem a hmem, rest2⟩
    · simp only [Option.some_orElse] at h
      have hvp : v = pr := Option.some.inj h
      rcases hsp : ciSplit a l with _ | pr2 <;> rw [hsp] at hv
      · simp at hv
      · have hv2 : (if jsBoundary pr2.1.getLast? pr2.2.head? = true then some pr2 else none)
            = some v := hv
        have hpr : v = pr2 := ite_some_none_eq hv2
        cases a with
        | nil => exact absurd rfl (halts [] (List.mem_cons_self _ _))
        | cons p ps =>
          obtain ⟨s1, s2⟩ := pr2
          rcases ciSplit_head hsp with ⟨c, cs2, hseg, hlow⟩
          refine ⟨p, ps, List.mem_cons_self _ _, c, cs2, ?_, hlow⟩
          rw [← hvp, hpr]
          exact hseg

theorem matchAltB_nonws {alts : List (List Char)} {l : List Char} {pr : List Char × List Char}
    (halts : ∀ p ∈ alts, p ≠ [] ∧ jsIsSpace (lowChar (p.headD ' ')) = false)
    (h : matchAltB alts l = some pr) :
    ∃ c cs2, pr.1 = c :: cs2 ∧ jsIsSpace c = false := by
  rcases matchAltB_head (fun p hp => (halts p hp).1) h with ⟨ph, pt, hmem, c, cs2, hseg, hlow⟩
  refine ⟨c, cs2, hseg, ?_⟩
  by_cases hws : jsIsSpace c = true
  · have hlc : lowChar c = c := ws_lowChar hws
    have hcc : c = lowChar ph := by rw [← hlc, hlow]
    have hh := (halts (ph :: pt) hmem).2
    simp only [List.headD_cons] at hh
    rw [← hcc] at hh
    rw [hws] at hh
    exact absurd hh (by simp)
  · simpa using hws

theorem matchDayAt_nonws {alts : List (List Char)} {prev : Option Char} {l m0 : List Char}
    (halts : ∀ p ∈ alts, p ≠ [] ∧ jsIsSpace (lowChar (p.headD ' ')) = false)
    (h : matchDayAt alts prev l = some m0) : ∃ c ∈ m0, jsIsSpace c = false := by
  unfold matchDayAt at h
  by_cases hb : jsBoundary prev l.head? = true
  · rw [if_pos hb] at h
    rcases hm : matchAltB alts l with _ | pr <;> rw [hm] at h
    · simp at h
    · have hm0 : m0 = pr.1 ++ (pr.2.takeWhile (fun c => c ≠ '.')).take 40 := by
        simpa using h.symm
      rcases matchAltB_nonws halts hm with ⟨c, cs2, hseg, hcw⟩
      refine ⟨c, ?_, hcw⟩
      rw [hm0, hseg]
      exact List.mem_append_left _ (List.mem_cons_self _ _)
  · rw [if_neg hb] at h
    simp at h

theorem scanDay_nonws {alts : List (List Char)}
    (halts : ∀ p ∈ alts, p ≠ [] ∧ jsIsSpace (lowChar (p.headD ' ')) = false) :
    ∀ {l : List Char} {prev : Option Char} {m0 : List Char},
    scanDay alts prev l = some m0 → ∃ c ∈ m0, jsIsSpace c = false := by
  intro l
  induction l with
  | nil => intro prev m0 h; simp [scanDay] at h
  | cons a rest ih =>
    intro prev m0 h
    simp only [scanDay] at h
    rcases hv : matchDayAt alts prev (a :: rest) with _ | v <;> rw [hv] at h
    · simp only [Option.none_orElse] at h
      exact ih h
    · simp only [Option.some_orElse] at h
      cases h
      exact matchDayAt_nonws halts hv

theorem matchWordAt_nonws {alts : List (List Char)} {prev : Option Char} {l m0 : List Char}
    (halts : ∀ p ∈ alts, p ≠ [] ∧ jsIsSpace (lowChar (p.headD ' ')) = false)
    (h : matchWordAt alts prev l = some m0) : ∃ c ∈ m0, jsIsSpace c = false := by
  unfold matchWordAt at h
  by_cases hb : jsBoundary prev l.head? = true
  · rw [if_pos hb] at h
    rcases hm : matchAltB alts l with _ | pr <;> rw [hm] at h
    · simp at h
    · have hm0 : m0 = pr.1 := by simpa using h.symm
      rcases matchAltB_nonws halts hm with ⟨c, cs2, hseg, hcw⟩
      refine ⟨c, ?_, hcw⟩
      rw [hm0, hseg]
      exact List.mem_cons_self _ _
  · rw [if_neg hb] at h
    simp at h

theorem scanWord_nonws {alts : List (List Char)}
    (halts : ∀ p ∈ alts, p ≠ [] ∧ jsIsSpace (lowChar (p.headD ' ')) = false) :
    ∀ {l : List Char} {prev : Option Char} {m0 : List Char},
    scanWord alts prev l = some m0 → ∃ c ∈ m0, jsIsSpace c = false := by
  intro l
  induction l with
  | nil => intro prev m0 h; simp [scanWord] at h
  | cons a rest ih =>
    intro prev m0 h
    simp only [scanWord] at h
    rcases hv : matchWordAt alts prev (a :: rest) with _ | v <;> rw [hv] at h
    · simp only [Option.none_orElse] at h
      exact ih h
    · simp only [Option.some_orElse] at h
      cases h
      exact matchWordAt_nonws halts hv

theorem extractPreferredTime_good {t v : String} (h : extractPreferredTime t = some v) :
    jsTrim v = v ∧ v ≠ "" := by
  simp only [extractPreferredTime] at h
  split at h
  next hg => simp at h
  next hg =>
    have hgF := Bool.eq_false_iff.mpr hg
    rw [Bool.not_eq_false'] at hgF
    rcases hm : scanDay dayAltList none (jsTrim t).data <|>
        scanWord todAltList none (jsTrim t).data with _ | m0 <;> rw [hm] at h
    · have hv : v = ⟨jsTrimL (jsTrim t).data⟩ := by simpa using h.symm
      have hne : jsTrim t ≠ "" := by
        intro h0
        rw [h0] at hgF
        exact absurd hgF (by decide)
      have hveq : v = jsTrim t := by
        rw [hv]
        exact String.ext (jsTrimL_idem t.data)
      exact ⟨by rw [hveq]; exact jsTrim_idem t, by rw [hveq]; exact hne⟩
    · have hv : v = ⟨jsTrimL m0⟩ := by simpa using h.symm
      have hnws : ∃ c ∈ m0, jsIsSpace c = false := by
        rcases hd : scanDay dayAltList none (jsTrim t).data with _ | md <;> rw [hd] at hm
        · simp only [Option.none_orElse] at hm
          exact scanWord_nonws (by decide) hm
        · simp only [Option.some_orElse] at hm
          cases hm
          exact scanDay_nonws (by decide) hd
      rcases hnws with ⟨c, hc, hcw⟩
      constructor
      · rw [hv]
        exact String.ext (jsTrimL_idem m0)
      · rw [hv]
        intro hq
        exact jsTrimL_ne_nil hc hcw (congrArg String.data hq)

/-! ### Session-level lemmas -/

theorem sessOK_refl (s : Session) : SessOK s s :=
  ⟨⟨id, id, id, id, id, id⟩, id, rfl, rfl⟩

theorem sessOK_trans {a b c : Session} (h1 : SessOK a b) (h2 : SessOK b c) : SessOK a c := by
  obtain ⟨⟨m1, m2, m3, m4, m5, m6⟩, g1, l1, mo1⟩ := h1
  obtain ⟨⟨n1, n2, n3, n4, n5, n6⟩, g2, l2, mo2⟩ := h2
  exact ⟨⟨fun h => n1 (m1 h), fun h => n2 (m2 h), fun h => n3 (m3 h), fun h => n4 (m4 h),
    fun h => n5 (m5 h), fun h => n6 (m6 h)⟩, fun h => g2 (g1 h), l2.trans l1, mo2.trans mo1⟩

theorem applyLangPref_state (s : Session) (t : String) : (applyLangPref s t).state = s.state := by
  rcases hd : detectLangPreference t with _ | p <;> simp [applyLangPref, hd, setSession]

theorem applyLangPref_mode (s : Session) (t : String) : (applyLangPref s t).mode = s.mode := by
  rcases hd : detectLangPreference t with _ | p <;> simp [applyLangPref, hd, setSession]

theorem applyLangPref_data (s : Session) (t : String) : (applyLangPref s t).data = s.data := by
  rcases hd : detectLangPreference t with _ | p <;>
    simp [applyLangPref, hd, setSession, mergeData]

theorem applyLangPref_lang (s : Session) (t : String) :
    (applyLangPref s t).lang = langAfter s t := by
  rcases hd : detectLangPreference t with _ | p <;>
    simp [applyLangPref, langAfter, hd, setSession]

theorem capture_untouched (s : Session) (u : String) :
    (captureNamePhone s u).state = s.state ∧ (captureNamePhone s u).lang = s.lang ∧
    (captureNamePhone s u).mode = s.mode ∧
    (captureNamePhone s u).data.doctorName = s.data.doctorName ∧
    (captureNamePhone s u).data.dept = s.data.dept ∧
    (captureNamePhone s u).data.preferredTime = s.data.preferredTime ∧
    (captureNamePhone s u).data.confirmationId = s.data.confirmationId := by
  simp only [captureNamePhone]
  split
  · exact ⟨rfl, rfl, rfl, rfl, rfl, rfl, rfl⟩
  · simp [setSession, mergeData]

theorem capture_phone_keep {s : Session} (u : String) (h : s.data.phone ≠ "") :
    (captureNamePhone s u).data.phone = s.data.phone := by
  simp only [captureNamePhone]
  split
  · rfl
  · simp only [setSession, mergeData]
    rcases hp : extractPhone u with _ | v
    · simp
    · simp [h]

theorem capture_name_keep {s : Session} (u : String) (h : s.data.patientName ≠ "") :
    (captureNamePhone s u).data.patientName = s.data.patientName := by
  simp only [captureNamePhone]
  split
  · rfl
  · simp only [setSession, mergeData]
    rcases hp : extractName u with _ | v
    · simp
    · simp [h]

theorem capture_phone_good (s : Session) (u : String) (hg : GoodVal s.data.phone) :
    GoodVal (captureNamePhone s u).data.phone := by
  simp only [captureNamePhone]
  split
  · exact hg
  · simp only [setSession, mergeData]
    rcases hp : extractPhone u with _ | v
    · simpa using hg
    · rcases extractPhone_good hp with ⟨htr, hne⟩
      by_cases hp0 : s.data.phone = ""
      · by_cases hv0 : v = ""
        · exact absurd hv0 hne
        · simp [hv0, hp0]
          exact Or.inr (by rw [htr]; exact hne)
      · simp [hp0]
        exact hg

theorem capture_name_good (s : Session) (u : String) (hg : GoodVal s.data.patientName) :
    GoodVal (captureNamePhone s u).data.patientName := by
  simp only [captureNamePhone]
  split
  · exact hg
  · simp only [setSession, mergeData]
    rcases hp : extractName u with _ | v
    · simpa using hg
    · rcases extractName_good hp with ⟨htr, hne⟩
      by_cases hp0 : s.data.patientName = ""
      · by_cases hv0 : v = ""
        · exact absurd hv0 hne
        · simp [hv0, hp0]
          exact Or.inr (by rw [htr]; exact hne)
      · simp [hp0]
        exact hg

theorem capture_sessOK (s : Session) (u : String) : SessOK s (captureNamePhone s u) := by
  obtain ⟨hst, hlang, hmode, hdoc, hdept, hpt, hcid⟩ := capture_untouched s u
  refine ⟨⟨?_, ?_, ?_, ?_, ?_, ?_⟩, ?_, hlang, hmode⟩
  · intro h
    have hne : s.data.patientName ≠ "" := by
      intro h0
      rw [h0] at h
      exact h rfl
    rw [capture_name_keep u hne]
    exact h
  · intro h
    have hne : s.data.phone ≠ "" := by
      intro h0
      rw [h0] at h
      exact h rfl
    rw [capture_phone_keep u hne]
    exact h
  · intro h
    rw [hdoc]
    exact h
  · intro h
    rw [hdept]
    exact h
  · intro h
    rw [hpt]
    exact h
  · intro h
    rw [hcid]
    exact h
  · rintro ⟨g1, g2, g3, g4, g5, g6⟩
    refine ⟨capture_name_good s u g1, capture_phone_good s u g2, ?_, ?_, ?_, ?_⟩
    · rw [hdoc]; exact g3
    · rw [hdept]; exact g4
    · rw [hpt]; exact g5
    · rw [hcid]; exact g6

theorem sessOK_statePatch (sc : Session) (st : String) :
    SessOK sc (setSession sc { state := some st }) := by
  have hdata : (setSession sc { state := some st }).data = sc.data := rfl
  refine ⟨⟨?_, ?_, ?_, ?_, ?_, ?_⟩, ?_, rfl, rfl⟩ <;> rw [hdata] <;> exact id

theorem sessOK_bookPatch {sc : Session} {d : Doctor} (hd : d ∈ DOCTORS) (st : String) :
    SessOK sc (setSession sc
      { state := some st, data := { doctorName := some d.name, dept := some d.dept } }) := by
  have hgood : jsTrim d.name ≠ "" ∧ jsTrim d.dept ≠ "" := by
    revert hd
    have : ∀ x ∈ DOCTORS, jsTrim x.name ≠ "" ∧ jsTrim x.dept ≠ "" := by decide
    exact this d
  refine ⟨⟨?_, ?_, ?_, ?_, ?_, ?_⟩, ?_, rfl, rfl⟩
  · intro h; simpa [setSession, mergeData] using h
  · intro h; simpa [setSession, mergeData] using h
  · intro _; simpa [setSession, mergeData] using hgood.1
  · intro _; simpa [setSession, mergeData] using hgood.2
  · intro h; simpa [setSession, mergeData] using h
  · intro h; simpa [setSession, mergeData] using h
  · rintro ⟨g1, g2, g3, g4, g5, g6⟩
    refine ⟨?_, ?_, ?_, ?_, ?_, ?_⟩ <;> simp [GoodVal, setSession, mergeData]
    · rcases g1 with g | g
      · exact Or.inl g
      · exact Or.inr g
    · rcases g2 with g | g
      · exact Or.inl g
      · exact Or.inr g
    · exact Or.inr hgood.1
    · exact Or.inr hgood.2
    · rcases g5 with g | g
      · exact Or.inl g
      · exact Or.inr g
    · rcases g6 with g | g
      · exact Or.inl g
      · exact Or.inr g

theorem sessOK_deptPatch {sc : Session} {dv : String} (hdv : jsTrim dv ≠ "") (st : String) :
    SessOK sc (setSession sc { state := some st, data := { dept := some dv } }) := by
  refine ⟨⟨?_, ?_, ?_, ?_, ?_, ?_⟩, ?_, rfl, rfl⟩
  · intro h; simpa [setSession, mergeData] using h
  · intro h; simpa [setSession, mergeData] using h
  · intro h; simpa [setSession, mergeData] using h
  · intro _; simpa [setSession, mergeData] using hdv
  · intro h; simpa [setSession, mergeData] using h
  · intro h; simpa [setSession, mergeData] using h
  · rintro ⟨g1, g2, g3, g4, g5, g6⟩
    refine ⟨?_, ?_, ?_, ?_, ?_, ?_⟩ <;> simp [GoodVal, setSession, mergeData]
    · rcases g1 with g | g
      · exact Or.inl g
      · exact Or.inr g
    · rcases g2 with g | g
      · exact Or.inl g
      · exact Or.inr g
    · rcases g3 with g | g
      · exact Or.inl g
      · exact Or.inr g
    · exact Or.inr hdv
    · rcases g5 with g | g
      · exact Or.inl g
      · exact Or.inr g
    · rcases g6 with g | g
      · exact Or.inl g
      · exact Or.inr g

theorem sessOK_ptPatch {sc : Session} {tv : String} (htv : jsTrim tv ≠ "") :
    SessOK sc (setSession sc { data := { preferredTime := some tv } }) := by
  refine ⟨⟨?_, ?_, ?_, ?_, ?_, ?_⟩, ?_, rfl, rfl⟩
  · intro h; simpa [setSession, mergeData] using h
  · intro h; simpa [setSession, mergeData] using h
  · intro h; simpa [setSession, mergeData] using h
  · intro h; simpa [setSession, mergeData] using h
  · intro _; simpa [setSession, mergeData] using htv
  · intro h; simpa [setSession, mergeData] using h
  · rintro ⟨g1, g2, g3, g4, g5, g6⟩
    refine ⟨?_, ?_, ?_, ?_, ?_, ?_⟩ <;> simp [GoodVal, setSession, mergeData]
    · rcases g1 with g | g
      · exact Or.inl g
      · exact Or.inr g
    · rcases g2 with g | g
      · exact Or.inl g
      · exact Or.inr g
    · rcases g3 with g | g
      · exact Or.inl g
      · exact Or.inr g
    · rcases g4 with g | g
      · exact Or.inl g
      · exact Or.inr g
    · exact Or.inr htv
    · rcases g6 with g | g
      · exact Or.inl g
      · exact Or.inr g

theorem buildConfirmation_fields (cfg : TurnCfg) (hex : String) (s : Session) (ov : String) :
    (buildConfirmation cfg hex s ov).session.state = "CONFIRMED" ∧
    (buildConfirmation cfg hex s ov).session.lang = s.lang ∧
    (buildConfirmation cfg hex s ov).session.mode = s.mode ∧
    (buildConfirmation cfg hex s ov).session.data.patientName = s.data.patientName ∧
    (buildConfirmation cfg hex s ov).session.data.phone = s.data.phone ∧
    (buildConfirmation cfg hex s ov).session.data.doctorName = s.data.doctorName ∧
    (buildConfirmation cfg hex s ov).session.data.dept = s.data.dept ∧
    (buildConfirmation cfg hex s ov).session.data.preferredTime =
      jsTrim (jsOrS (jsOrS ov s.data.preferredTime) "") ∧
    (buildConfirmation cfg hex s ov).session.data.confirmationId = "APT-" ++ jsToUpper hex ∧
    (buildConfirmation cfg hex s ov).transfer = false := by
  refine ⟨rfl, rfl, rfl, rfl, rfl, rfl, rfl, rfl, rfl, rfl⟩

theorem apt_id_good (hex : String) : jsTrim ("APT-" ++ jsToUpper hex) ≠ "" := by
  apply jsTrim_ne_empty (c := 'A')
  · show 'A' ∈ ("APT-" ++ jsToUpper hex).data
    have : ("APT-" ++ jsToUpper hex).data = "APT-".data ++ (jsToUpper hex).data := rfl
    rw [this]
    exact List.mem_append_left _ (by decide)
  · decide

theorem buildConfirmation_sessOK (cfg : TurnCfg) (hex : String) (s : Session) (ov : String)
    (hov : jsTrim s.data.preferredTime ≠ "" → (ov = "" ∨ jsTrim ov ≠ "")) :
    SessOK s (buildConfirmation cfg hex s ov).session := by
  obtain ⟨hst, hlang, hmode, hpn, hph, hdoc, hdept, hpt, hcid, htr⟩ :=
    buildConfirmation_fields cfg hex s ov
  refine ⟨⟨?_, ?_, ?_, ?_, ?_, ?_⟩, ?_, hlang, hmode⟩
  · intro h; rw [hpn]; exact h
  · intro h; rw [hph]; exact h
  · intro h; rw [hdoc]; exact h
  · intro h; rw [hdept]; exact h
  · intro h
    rw [hpt, jsOrS_empty_right]
    rcases hov h with hov0 | hov0
    · rw [hov0]
      show jsTrim (jsTrim (jsOrS "" s.data.preferredTime)) ≠ ""
      have : jsOrS "" s.data.preferredTime = s.data.preferredTime := by simp [jsOrS]
      rw [this, jsTrim_idem]
      exact h
    · have hovne : ov ≠ "" := by
        intro h0
        rw [h0] at hov0
        exact hov0 rfl
      show jsTrim (jsTrim (jsOrS ov s.data.preferredTime)) ≠ ""
      rw [jsOrS, if_neg hovne, jsTrim_idem]
      exact hov0
  · intro h; rw [hcid]; exact apt_id_good hex
  · rintro ⟨g1, g2, g3, g4, g5, g6⟩
    refine ⟨?_, ?_, ?_, ?_, ?_, ?_⟩
    · rw [hpn]; exact g1
    · rw [hph]; exact g2
    · rw [hdoc]; exact g3
    · rw [hdept]; exact g4
    · rw [hpt]; exact goodVal_jsTrim _
    · rw [hcid]; exact Or.inr (apt_id_good hex)

theorem findDoctorByName_sub (q : String) : ∀ d ∈ findDoctorByName q, d ∈ DOCTORS := by
  intro d hd
  simp only [findDoctorByName] at hd
  split at hd
  · simp at hd
  · exact List.mem_of_mem_filter (List.take_subset _ _ hd)

theorem listDoctorsByDept_sub (dept loc : String) :
    ∀ d ∈ listDoctorsByDept dept loc, d ∈ DOCTORS := by
  intro d hd
  exact List.mem_of_mem_filter hd

theorem detectDept_good {t dv : String} (h : detectDept t = some dv) : jsTrim dv ≠ "" := by
  simp only [detectDept] at h
  rcases hf : deptAliases.find? (fun a => a.1.any (fun kw => jsIncludes (normalize t) kw))
      with _ | a <;> rw [hf] at h
  · have hmem := List.mem_of_find?_eq_some h
    have hall : ∀ x ∈ DEPARTMENTS, jsTrim x ≠ "" := by decide
    exact hall dv hmem
  · have hmem := List.mem_of_find?_eq_some hf
    have hdv : dv = a.2 := by simpa using h.symm
    have hall : ∀ x ∈ deptAliases, jsTrim x.2 ≠ "" := by decide
    rw [hdv]
    exact hall a hmem

theorem routeStep_sessOK (cfg : TurnCfg) (hex : String) (s0 sc : Session) (tRaw norm : String) :
    SessOK sc (routeStep cfg hex s0 sc tRaw norm).session := by
  simp only [routeStep]
  split
  · split
    next d heq =>
      have hmem := List.mem_cons_self d ([] : List Doctor)
      rw [← heq] at hmem
      exact sessOK_bookPatch (findDoctorByName_sub _ d hmem) _
    next => exact sessOK_refl sc
  · split
    next dv hdv =>
      split
      · exact sessOK_refl sc
      · exact sessOK_deptPatch (detectDept_good hdv) _
    next hdv =>
      split
      · split
        next d hsel =>
          refine sessOK_bookPatch ?_ _
          rcases hpi : jsParseInt norm with _ | num
          · rw [hpi] at hsel
            simp at hsel
          · rw [hpi] at hsel
            have hsel2 : (if num ≥ 1 then
                (if s0.data.dept ≠ "" then listDoctorsByDept s0.data.dept "Gurgaon"
                  else []).get? (num - 1).toNat
                else none) = some d := hsel
            by_cases hn : num ≥ 1
            · rw [if_pos hn] at hsel2
              by_cases hd0 : s0.data.dept ≠ ""
              · rw [if_pos hd0] at hsel2
                exact listDoctorsByDept_sub _ _ d (List.get?_mem hsel2)
              · rw [if_neg hd0] at hsel2
                simp at hsel2
            · rw [if_neg hn] at hsel2
              simp at hsel2
        next =>
          split
          next d heq =>
            have hmem := List.mem_cons_self d ([] : List Doctor)
            rw [← heq] at hmem
            exact sessOK_bookPatch (findDoctorByName_sub _ d hmem) _
          next => exact sessOK_refl sc
      · exact sessOK_refl sc

theorem collectNameStep_sessOK (cfg : TurnCfg) (hex : String) (s2 : Session) (tRaw : String) :
    SessOK s2 (collectNameStep cfg hex s2 tRaw).session := by
  simp only [collectNameStep]
  split
  · split
    · apply buildConfirmation_sessOK
      intro hpt
      have hne : s2.data.preferredTime ≠ "" := by
        intro h0
        rw [h0] at hpt
        exact hpt rfl
      right
      show jsTrim (jsOrS s2.data.preferredTime ((extractPreferredTime tRaw).getD "")) ≠ ""
      rw [jsOrS, if_neg hne]
      exact hpt
    · exact sessOK_statePatch s2 _
  · split
    · exact sessOK_refl s2
    · exact sessOK_statePatch s2 _

theorem collectPhoneStep_sessOK (cfg : TurnCfg) (hex : String) (s2 : Session) :
    SessOK s2 (collectPhoneStep cfg hex s2).session := by
  simp only [collectPhoneStep]
  split
  · exact sessOK_refl s2
  · split
    · apply buildConfirmation_sessOK
      intro hpt
      right
      show jsTrim (jsTrim (jsOrS s2.data.preferredTime "")) ≠ ""
      rw [jsOrS_empty_right, jsTrim_idem]
      exact hpt
    · exact sessOK_statePatch s2 _

theorem collectTimeStep_sessOK (cfg : TurnCfg) (hex : String) (s2 : Session) (tRaw : String)
    (htw : jsTrim tRaw = tRaw) (htr : tRaw ≠ "") :
    SessOK s2 (collectTimeStep cfg hex s2 tRaw).session := by
  have htime : jsTrim (jsOrS ((extractPreferredTime tRaw).getD "") tRaw) ≠ "" := by
    rcases he : extractPreferredTime tRaw with _ | v
    · simp only [Option.getD_none]
      have : jsOrS "" tRaw = tRaw := by simp [jsOrS]
      rw [this, htw]
      exact htr
    · rcases extractPreferredTime_good he with ⟨htrv, hnev⟩
      simp only [Option.getD_some]
      rw [jsOrS, if_neg hnev, htrv]
      exact hnev
  simp only [collectTimeStep]
  refine sessOK_trans (sessOK_ptPatch htime) ?_
  apply buildConfirmation_sessOK
  intro _
  right
  exact htime

theorem stateStep_s3_sessOK (s0 s2 : Session) (tRaw : String) :
    SessOK s2 (match extractPreferredTime tRaw with
      | some tv => if tv ≠ "" && s0.data.preferredTime = "" then
          setSession s2 { data := { preferredTime := some tv } } else s2
      | none => s2) := by
  rcases he : extractPreferredTime tRaw with _ | tv
  · exact sessOK_refl s2
  · rcases extractPreferredTime_good he with ⟨htrv, hnev⟩
    have hred : (match some tv with
      | some tv => if tv ≠ "" && s0.data.preferredTime = "" then
          setSession s2 { data := { preferredTime := some tv } } else s2
      | none => s2) = if tv ≠ "" && s0.data.preferredTime = "" then
          setSession s2 { data := { preferredTime := some tv } } else s2 := rfl
    rw [hred]
    split
    · exact sessOK_ptPatch (by rw [htrv]; exact hnev)
    · exact sessOK_refl s2

theorem stateStep_sessOK (cfg : TurnCfg) (hex : String) (s0 s2 : Session) (tRaw norm : String)
    (htw : jsTrim tRaw = tRaw) (htr : tRaw ≠ "") :
    SessOK s2 (stateStep cfg hex s0 s2 tRaw norm).session := by
  simp only [stateStep]
  split
  · split
    · split
      · exact stateStep_s3_sessOK s0 s2 tRaw
      · exact stateStep_s3_sessOK s0 s2 tRaw
    · exact sessOK_trans (stateStep_s3_sessOK s0 s2 tRaw) (routeStep_sessOK cfg hex s0 _ tRaw norm)
  · split
    · exact collectNameStep_sessOK cfg hex s2 tRaw
    · split
      · exact collectPhoneStep_sessOK cfg hex s2
      · split
        · exact collectTimeStep_sessOK cfg hex s2 tRaw htw htr
        · exact routeStep_sessOK cfg hex s0 s2 tRaw norm

theorem getAI_sessOK (cfg : TurnCfg) (hex : String) (s0 : Session) (u : String)
    (hu : jsTrim u ≠ "") :
    SessOK (applyLangPref s0 (jsTrim u)) (getAIAnswerHospital cfg hex s0 u).session := by
  simp only [getAIAnswerHospital]
  refine sessOK_trans (capture_sessOK _ (jsTrim u)) ?_
  split
  · exact sessOK_refl _
  · exact stateStep_sessOK cfg hex s0 _ (jsTrim u) (normalize (jsTrim u)) (jsTrim_idem u) hu

theorem handleInput_master (cfg : TurnCfg) (hex : String) (s : Session) (u : String)
    (hu0 : jsTrim u = u) (hu : u ≠ "") :
    SlotsMono s.data (handleInput cfg hex s u).session.data ∧
    (GoodSlots s.data → GoodSlots (handleInput cfg hex s u).session.data) ∧
    (handleInput cfg hex s u).session.lang = langAfter s u ∧
    (handleInput cfg hex s u).session.mode = s.mode := by
  have hu' : jsTrim u ≠ "" := by rw [hu0]; exact hu
  have h := getAI_sessOK cfg hex (applyLangPref s u) u hu'
  rw [hu0] at h
  obtain ⟨hm, hg, hl, hmo⟩ := h
  have hdd : (applyLangPref (applyLangPref s u) u).data = s.data := by
    rw [applyLangPref_data, applyLangPref_data]
  have hmm : (applyLangPref (applyLangPref s u) u).mode = s.mode := by
    rw [applyLangPref_mode, applyLangPref_mode]
  have hll : (applyLangPref (applyLangPref s u) u).lang = langAfter s u := by
    rcases hd : detectLangPreference u with _ | p
    · rw [applyLangPref_lang]
      simp only [langAfter, hd]
      rw [applyLangPref_lang]
      simp only [langAfter, hd]
    · rw [applyLangPref_lang]
      simp only [langAfter, hd]
  rw [hdd] at hm hg
  refine ⟨hm, hg, ?_, ?_⟩
  · show (getAIAnswerHospital cfg hex (applyLangPref s u) u).session.lang = langAfter s u
    rw [hl, hll]
  · show (getAIAnswerHospital cfg hex (applyLangPref s u) u).session.mode = s.mode
    rw [hmo, hmm]

theorem escalation_helper (cfg : TurnCfg) (hex : String) (s : Session) (u : String)
    (hb : (wantsHuman (jsTrim u) || looksLikeMedicalAdvice (jsTrim u)) = true) :
    getAIAnswerHospital cfg hex s u =
      { say := hospitalPolish cfg (captureNamePhone (applyLangPref s (jsTrim u)) (jsTrim u))
          (handoffMsg cfg (captureNamePhone (applyLangPref s (jsTrim u)) (jsTrim u))),
        transfer := true,
        session := captureNamePhone (applyLangPref s (jsTrim u)) (jsTrim u) } := by
  simp only [getAIAnswerHospital, hb, if_true]

/-- C3: an utterance hitting the `wantsHuman` or `looksLikeMedicalAdvice`
keyword sets makes the turn return `transfer = true` with the fixed
(possibly polished) handoff message, whatever the dialogue state: the
session is only touched by the language lock and the opportunistic
name/phone capture, and the dialogue state is unchanged, so no
state-machine branch runs. -/
theorem escalation_precedence (cfg : TurnCfg) (hex : String) (s : Session) (u : String)
    (hesc : wantsHuman (jsTrim u) = true ∨ looksLikeMedicalAdvice (jsTrim u) = true) :
    (getAIAnswerHospital cfg hex s u).transfer = true ∧
    (getAIAnswerHospital cfg hex s u).say =
      hospitalPolish cfg (captureNamePhone (applyLangPref s (jsTrim u)) (jsTrim u))
        (handoffMsg cfg (captureNamePhone (applyLangPref s (jsTrim u)) (jsTrim u))) ∧
    (getAIAnswerHospital cfg hex s u).session =
      captureNamePhone (applyLangPref s (jsTrim u)) (jsTrim u) ∧
    (getAIAnswerHospital cfg hex s u).session.state = s.state := by
  have hb : (wantsHuman (jsTrim u) || looksLikeMedicalAdvice (jsTrim u)) = true := by
    rcases hesc with h | h <;> simp [h]
  rw [escalation_helper cfg hex s u hb]
  refine ⟨rfl, rfl, rfl, ?_⟩
  show (captureNamePhone (applyLangPref s (jsTrim u)) (jsTrim u)).state = s.state
  rw [(capture_untouched _ _).1, applyLangPref_state]

/-- C3 witness: "I have fever, please suggest cardiology" names both a
medical keyword and a bookable department, yet the turn transfers. -/
theorem escalation_precedence_witness :
    looksLikeMedicalAdvice (jsTrim "I have fever, please suggest cardiology") = true ∧
    (getAIAnswerHospital {} "ab12cd"
      { mode := "hospital", state := "NEW", lang := some "en-IN", data := {} }
      "I have fever, please suggest cardiology").transfer = true :=
  ⟨by decide, (escalation_precedence {} "ab12cd"
    { mode := "hospital", state := "NEW", lang := some "en-IN", data := {} }
    "I have fever, please suggest cardiology" (Or.inr (by decide))).1⟩

/-- C2 counterexample: in `COLLECT_NAME` with both name and phone already
collected, the utterance "fever" neither asks for the time (no move to
`COLLECT_TIME`) nor confirms: the escalation check fires first and
transfers, leaving the state at `COLLECT_NAME`. -/
theorem collect_name_counterexample :
    (getAIAnswerHospital {} "ab12cd"
      { mode := "hospital", state := "COLLECT_NAME", lang := some "en-IN",
        data := { patientName := "Rohit", phone := "9876543210" } }
      "fever").transfer = true ∧
    (getAIAnswerHospital {} "ab12cd"
      { mode := "hospital", state := "COLLECT_NAME", lang := some "en-IN",
        data := { patientName := "Rohit", phone := "9876543210" } }
      "fever").session.state = "COLLECT_NAME" := by
  constructor
  · decide
  · decide

/-- C2 (amended): in `COLLECT_NAME` with both name and phone already
populated, provided the utterance does not hit the escalation keyword
sets, the engine never re-asks the name: when a preferred time is known
(stored earlier or stated now) the turn confirms (`CONFIRMED`), and
otherwise it moves to `COLLECT_TIME`; either way `transfer = false`. -/
theorem collect_name_no_double_ask (cfg : TurnCfg) (hex : String) (s : Session) (u : String)
    (hst : s.state = "COLLECT_NAME") (hn : s.data.patientName ≠ "") (hp : s.data.phone ≠ "")
    (hw : wantsHuman (jsTrim u) = false) (hm : looksLikeMedicalAdvice (jsTrim u) = false) :
    (jsOrS s.data.preferredTime ((extractPreferredTime (jsTrim u)).getD "") ≠ "" →
      (getAIAnswerHospital cfg hex s u).session.state = "CONFIRMED") ∧
    (jsOrS s.data.preferredTime ((extractPreferredTime (jsTrim u)).getD "") = "" →
      (getAIAnswerHospital cfg hex s u).session.state = "COLLECT_TIME") ∧
    (getAIAnswerHospital cfg hex s u).transfer = false := by
  have hb : (wantsHuman (jsTrim u) || looksLikeMedicalAdvice (jsTrim u)) = false := by
    rw [hw, hm]; rfl
  have hs1n : (applyLangPref s (jsTrim u)).data.patientName = s.data.patientName := by
    rw [applyLangPref_data]
  have hs1p : (applyLangPref s (jsTrim u)).data.phone = s.data.phone := by
    rw [applyLangPref_data]
  have hs2n : (captureNamePhone (applyLangPref s (jsTrim u)) (jsTrim u)).data.patientName
      = s.data.patientName := by
    rw [capture_name_keep (jsTrim u) (by rw [hs1n]; exact hn), hs1n]
  have hs2p : (captureNamePhone (applyLangPref s (jsTrim u)) (jsTrim u)).data.phone
      = s.data.phone := by
    rw [capture_phone_keep (jsTrim u) (by rw [hs1p]; exact hp), hs1p]
  have hs2t : (captureNamePhone (applyLangPref s (jsTrim u)) (jsTrim u)).data.preferredTime
      = s.data.preferredTime := by
    rw [(capture_untouched _ _).2.2.2.2.2.1, applyLangPref_data]
  have heng : getAIAnswerHospital cfg hex s u =
      collectNameStep cfg hex (captureNamePhone (applyLangPref s (jsTrim u)) (jsTrim u))
        (jsTrim u) := by
    simp only [getAIAnswerHospital, hb, Bool.false_eq_true, if_false, stateStep, hst]
    rw [if_neg (by decide), if_pos trivial]
  rw [heng]
  simp only [collectNameStep]
  rw [if_pos (by rw [hs2n, hs2p]; simp [hn, hp]), hs2t]
  constructor
  · intro htv
    rw [if_pos (by simpa using htv)]
    exact (buildConfirmation_fields _ _ _ _).1
  constructor
  · intro htv
    rw [if_neg (by simpa using htv)]
    rfl
  · split
    · exact (buildConfirmation_fields _ _ _ _).2.2.2.2.2.2.2.2.2
    · rfl

/-- C2 witness: Rohit with phone on file says "tomorrow evening" in
`COLLECT_NAME`: the turn confirms instead of re-asking the name. -/
theorem collect_name_no_double_ask_witness :
    jsOrS ({ patientName := "Rohit", phone := "9876543210" } : SlotData).preferredTime
      ((extractPreferredTime (jsTrim "tomorrow evening")).getD "") ≠ "" ∧
    (getAIAnswerHospital {} "ab12cd"
      { mode := "hospital", state := "COLLECT_NAME", lang := some "en-IN",
        data := { patientName := "Rohit", phone := "9876543210" } }
      "tomorrow evening").session.state = "CONFIRMED" :=
  ⟨by decide, (collect_name_no_double_ask {} "ab12cd"
    { mode := "hospital", state := "COLLECT_NAME", lang := some "en-IN",
      data := { patientName := "Rohit", phone := "9876543210" } }
    "tomorrow evening" rfl (by decide) (by decide) (by decide) (by decide)).1 (by decide)⟩

set_option maxRecDepth 40000 in
/-- C5: when a `COLLECT_TIME` turn hears a new time `v`, the whole turn
is exactly `buildConfirmation` run with the single value `v` (the
override and the stored slot both being `v`, any previously stored
preferred time is discarded); the stored slot ends as `v`, the state as
`CONFIRMED`; and the English confirmation template mentions the
preferred time at exactly one spot. -/
theorem single_preferred_time (cfg : TurnCfg) (hex : String) (s : Session) (u v : String)
    (hst : s.state = "COLLECT_TIME") (hw : wantsHuman (jsTrim u) = false)
    (hm : looksLikeMedicalAdvice (jsTrim u) = false)
    (hv : extractPreferredTime (jsTrim u) = some v) :
    getAIAnswerHospital cfg hex s u =
      buildConfirmation cfg hex
        (setSession (captureNamePhone (applyLangPref s (jsTrim u)) (jsTrim u))
          { data := { preferredTime := some v } }) v ∧
    (getAIAnswerHospital cfg hex s u).session.data.preferredTime = v ∧
    (getAIAnswerHospital cfg hex s u).session.state = "CONFIRMED" ∧
    countSubstr (confMessage false "Rohit" "Dr Arjun Mehta" "Cardiology" "tomorrow evening"
      "APT-AB12CD" "9876543210") "Preferred time: " = 1 := by
  rcases extractPreferredTime_good hv with ⟨htrv, hnev⟩
  have hb : (wantsHuman (jsTrim u) || looksLikeMedicalAdvice (jsTrim u)) = false := by
    rw [hw, hm]; rfl
  have heng : getAIAnswerHospital cfg hex s u =
      collectTimeStep cfg hex (captureNamePhone (applyLangPref s (jsTrim u)) (jsTrim u))
        (jsTrim u) := by
    simp only [getAIAnswerHospital, hb, Bool.false_eq_true, if_false, stateStep, hst]
    rw [if_neg (by decide), if_neg (by decide), if_neg (by decide), if_pos trivial]
  have htime : jsOrS ((extractPreferredTime (jsTrim u)).getD "") (jsTrim u) = v := by
    rw [hv, Option.getD_some, jsOrS, if_neg hnev]
  have hmain : getAIAnswerHospital cfg hex s u =
      buildConfirmation cfg hex
        (setSession (captureNamePhone (applyLangPref s (jsTrim u)) (jsTrim u))
          { data := { preferredTime := some v } }) v := by
    rw [heng]
    simp only [collectTimeStep, htime]
  refine ⟨hmain, ?_, ?_, ?_⟩
  · rw [hmain]
    have := (buildConfirmation_fields cfg hex
      (setSession (captureNamePhone (applyLangPref s (jsTrim u)) (jsTrim u))
        { data := { preferredTime := some v } }) v).2.2.2.2.2.2.2.1
    rw [this, jsOrS_empty_right, jsOrS, if_neg hnev, htrv]
  · rw [hmain]
    exact (buildConfirmation_fields _ _ _ _).1
  · decide

/-- C5 witness: a stored "Friday 4 PM" followed by "tomorrow evening"
in `COLLECT_TIME` confirms with the single new value. -/
theorem single_preferred_time_witness :
    extractPreferredTime (jsTrim "tomorrow evening") = some "tomorrow evening" ∧
    (getAIAnswerHospital {} "ab12cd"
      { mode := "hospital", state := "COLLECT_TIME", lang := some "en-IN",
        data := { patientName := "Rohit", phone := "9876543210",
                  doctorName := "Dr Arjun Mehta", dept := "Cardiology",
                  preferredTime := "Friday 4 PM" } }
      "tomorrow evening").session.data.preferredTime = "tomorrow evening" :=
  ⟨by decide, (single_preferred_time {} "ab12cd"
    { mode := "hospital", state := "COLLECT_TIME", lang := some "en-IN",
      data := { patientName := "Rohit", phone := "9876543210",
                doctorName := "Dr Arjun Mehta", dept := "Cardiology",
                preferredTime := "Friday 4 PM" } }
    "tomorrow evening" "tomorrow evening" rfl (by decide) (by decide) (by decide)).2.1⟩

theorem slotsMono_get {d d' : SlotData} (h : SlotsMono d d') (f : SlotName)
    (hne : jsTrim (getSlot f d) ≠ "") : jsTrim (getSlot f d') ≠ "" := by
  obtain ⟨h1, h2, h3, h4, h5, h6⟩ := h
  cases f
  · exact h1 hne
  · exact h2 hne
  · exact h3 hne
  · exact h4 hne
  · exact h5 hne
  · exact h6 hne

theorem goodSlots_get {d : SlotData} (h : GoodSlots d) (f : SlotName) :
    GoodVal (getSlot f d) := by
  obtain ⟨h1, h2, h3, h4, h5, h6⟩ := h
  cases f
  · exact h1
  · exact h2
  · exact h3
  · exact h4
  · exact h5
  · exact h6

theorem welcome_goodSlots (cfg : TurnCfg) (mode : String) :
    GoodSlots (welcomeSession cfg mode).data :=
  ⟨Or.inl rfl, Or.inl rfl, Or.inl rfl, Or.inl rfl, Or.inl rfl, Or.inl rfl⟩

theorem processTurns_append (cfg : TurnCfg) (a b : List (String × String)) :
    ∀ s : Session, processTurns cfg s (a ++ b) = processTurns cfg (processTurns cfg s a) b := by
  induction a with
  | nil => intro s; rfl
  | cons p rest ih =>
    intro s
    obtain ⟨hx, hu⟩ := p
    simp only [List.cons_append, processTurns]
    exact ih _

theorem processTurns_mono (cfg : TurnCfg) (ts : List (String × String)) :
    ∀ s : Session, (∀ p ∈ ts, jsTrim p.2 = p.2 ∧ p.2 ≠ "") → GoodSlots s.data →
      (∀ f, jsTrim (getSlot f s.data) ≠ "" → jsTrim (getSlot f (processTurns cfg s ts).data) ≠ "") ∧
      GoodSlots (processTurns cfg s ts).data := by
  induction ts with
  | nil => intro s _ hg; exact ⟨fun _ h => h, hg⟩
  | cons p rest ih =>
    intro s hts hg
    obtain ⟨hx, hu⟩ := p
    obtain ⟨hp1, hp2⟩ := hts (hx, hu) (List.mem_cons_self _ rest)
    obtain ⟨hmono, hgp, _, _⟩ := handleInput_master cfg hx s hu hp1 hp2
    have hrest : ∀ q ∈ rest, jsTrim q.2 = q.2 ∧ q.2 ≠ "" :=
      fun q hq => hts q (List.mem_cons_of_mem _ hq)
    simp only [processTurns]
    obtain ⟨ihm, ihg⟩ := ih (handleInput cfg hx s hu).session hrest (hgp hg)
    exact ⟨fun f h => ihm f (slotsMono_get hmono f h), ihg⟩

/-- C1: along any call starting at the `/welcome` session, with every
utterance non-empty after trimming (the route discards empty speech
before invoking the engine), a slot that is non-empty after some prefix
of the turns is still non-empty after any further turns: `setSession`
merges patches and never clears a slot, and the opportunistic capture
writes only empty slots. -/
theorem slots_no_regression (cfg : TurnCfg) (mode : String)
    (ts1 ts2 : List (String × String))
    (hts1 : ∀ p ∈ ts1, jsTrim p.2 = p.2 ∧ p.2 ≠ "")
    (hts2 : ∀ p ∈ ts2, jsTrim p.2 = p.2 ∧ p.2 ≠ "") (f : SlotName)
    (hne : getSlot f (processTurns cfg (welcomeSession cfg mode) ts1).data ≠ "") :
    getSlot f (processTurns cfg (welcomeSession cfg mode) (ts1 ++ ts2)).data ≠ "" := by
  rw [processTurns_append]
  have hg1 : GoodSlots (processTurns cfg (welcomeSession cfg mode) ts1).data :=
    (processTurns_mono cfg ts1 _ hts1 (welcome_goodSlots cfg mode)).2
  have htr : jsTrim (getSlot f (processTurns cfg (welcomeSession cfg mode) ts1).data) ≠ "" := by
    rcases goodSlots_get hg1 f with h | h
    · exact absurd h hne
    · exact h
  have h2 := (processTurns_mono cfg ts2 _ hts2 hg1).1 f htr
  intro h0
  rw [h0] at h2
  exact h2 rfl

/-- C1 witness: the phone captured on the first turn is still there
after a further contentless turn. -/
theorem slots_no_regression_witness :
    getSlot SlotName.phone
      (processTurns {} (welcomeSession {} "hospital") [("ab", "9876543210")]).data ≠ "" ∧
    getSlot SlotName.phone
      (processTurns {} (welcomeSession {} "hospital")
        ([("ab", "9876543210")] ++ [("cd", "ok")])).data ≠ "" :=
  ⟨by decide, slots_no_regression {} "hospital" [("ab", "9876543210")] [("cd", "ok")]
    (by decide) (by decide) SlotName.phone (by decide)⟩

theorem detectLang_values {t p : String} (h : detectLangPreference t = some p) :
    p = "hi-IN" ∨ p = "en-IN" := by
  simp only [detectLangPreference] at h
  split at h
  · exact Or.inl (Option.some.inj h).symm
  · split at h
    · exact Or.inl (Option.some.inj h).symm
    · split at h
      · exact Or.inr (Option.some.inj h).symm
      · exact absurd h (by simp)

theorem detect_en_imp {t : String} (h : detectLangPreference t = some "en-IN") :
    jsIncludes (normalize t) "english" = true ∨ jsIncludes (normalize t) "अंग्रेजी" = true := by
  simp only [detectLangPreference] at h
  split at h
  · exact absurd (Option.some.inj h) (by decide)
  · split at h
    · exact absurd (Option.some.inj h) (by decide)
    · split at h
      next hc => exact Bool.or_eq_true _ _ ▸ hc
      · exact absurd h (by simp)

/-- C7: along any turns whose utterances are non-empty after trimming,
(a) if none of them contains an english/अंग्रेजी token (so the detector
can never return `en-IN`), a session language of Hindi stays Hindi; and
(b) a non-null session language never becomes null: the language is only
ever overwritten by a non-null detector hit. -/
theorem hindi_stickiness (cfg : TurnCfg) (ts : List (String × String)) :
    ∀ s : Session, (∀ p ∈ ts, jsTrim p.2 = p.2 ∧ p.2 ≠ "") →
    ((∀ p ∈ ts, jsIncludes (normalize p.2) "english" = false ∧
        jsIncludes (normalize p.2) "अंग्रेजी" = false) →
      s.lang = some "hi-IN" → (processTurns cfg s ts).lang = some "hi-IN") ∧
    (s.lang ≠ none → (processTurns cfg s ts).lang ≠ none) := by
  induction ts with
  | nil => intro s _; exact ⟨fun _ h => h, fun h => h⟩
  | cons p rest ih =>
    intro s hts
    obtain ⟨hx, hu⟩ := p
    obtain ⟨hp1, hp2⟩ := hts (hx, hu) (List.mem_cons_self _ rest)
    obtain ⟨_, _, hlang, _⟩ := handleInput_master cfg hx s hu hp1 hp2
    have hrest : ∀ q ∈ rest, jsTrim q.2 = q.2 ∧ q.2 ≠ "" :=
      fun q hq => hts q (List.mem_cons_of_mem _ hq)
    obtain ⟨ih1, ih2⟩ := ih (handleInput cfg hx s hu).session hrest
    constructor
    · intro heng hhi
      refine ih1 (fun q hq => heng q (List.mem_cons_of_mem _ hq)) ?_
      rw [hlang, langAfter]
      obtain ⟨he1, he2⟩ := heng (hx, hu) (List.mem_cons_self _ rest)
      rcases hd : detectLangPreference hu with _ | pv
      · exact hhi
      · rcases detectLang_values hd with hv | hv
        · rw [hv]
        · rw [hv] at hd
          rcases detect_en_imp hd with hbad | hbad
          · rw [he1] at hbad
            exact absurd hbad (by decide)
          · rw [he2] at hbad
            exact absurd hbad (by decide)
    · intro hnn
      refine ih2 ?_
      rw [hlang, langAfter]
      rcases hd : detectLangPreference hu with _ | pv
      · exact hnn
      · simp

/-- C7 witness: a Hindi-locked session stays Hindi across a turn whose
utterance carries no English-preference token. -/
theorem hindi_stickiness_witness :
    (jsTrim "ok" = "ok" ∧ jsIncludes (normalize "ok") "english" = false) ∧
    (processTurns {} { mode := "hospital", state := "NEW", lang := some "hi-IN", data := {} }
      [("ab", "ok")]).lang = some "hi-IN" :=
  ⟨⟨by decide, by decide⟩, (hindi_stickiness {} [("ab", "ok")]
    { mode := "hospital", state := "NEW", lang := some "hi-IN", data := {} }
    (by decide)).1 (by decide) rfl⟩

end Cavas
